import Mathlib

/-!
Shallow embedding of the millow-server agent-orchestration core
(`src/agents/orchestrator/agent-orchestrator.service.ts`,
`src/agents/maps-agent/maps-agent.service.ts`, and the conversation
context store `updateSearchContext`), together with proofs settling the
frozen claims about the orchestration pipeline.

JavaScript dynamic values are modelled by `JsonVal`; `Record<string, any>`
objects are association lists (`JsRecord`) whose update function
(`recordSet`) mirrors JS property assignment (in-place overwrite of an
existing key, append for a fresh key).  JS truthiness is modelled by
`jsTruthy`; an absent key reads as `JsonVal.null` (undefined and null are
both falsy and are not distinguished anywhere the embedded code cares).
-/

namespace Millow

/-- A JavaScript value as it flows through the orchestrator's
`Record<string, any>` bags. -/
inductive JsonVal where
  | null
  | bool (b : Bool)
  | num (n : Int)
  | str (s : String)
  | arr (elems : List JsonVal)
  | obj (fields : List (String × JsonVal))
deriving Repr

mutual

/-- Structural equality test for `JsonVal` (the derive handler does not
support this nested inductive, so it is written out). -/
def JsonVal.beq : JsonVal → JsonVal → Bool
  | .null, .null => true
  | .bool a, .bool b => a == b
  | .num a, .num b => a == b
  | .str a, .str b => a == b
  | .arr a, .arr b => JsonVal.beqList a b
  | .obj a, .obj b => JsonVal.beqFields a b
  | _, _ => false

/-- Elementwise equality test for arrays of `JsonVal`. -/
def JsonVal.beqList : List JsonVal → List JsonVal → Bool
  | [], [] => true
  | x :: xs, y :: ys => JsonVal.beq x y && JsonVal.beqList xs ys
  | _, _ => false

/-- Fieldwise equality test for object field lists. -/
def JsonVal.beqFields : List (String × JsonVal) → List (String × JsonVal) → Bool
  | [], [] => true
  | (k, v) :: xs, (l, w) :: ys =>
      k == l && JsonVal.beq v w && JsonVal.beqFields xs ys
  | _, _ => false

end

mutual

theorem JsonVal.beq_iff : ∀ a b : JsonVal, JsonVal.beq a b = true ↔ a = b
  | .null, .null => by simp [JsonVal.beq]
  | .bool a, .bool b => by simp [JsonVal.beq]
  | .num a, .num b => by simp [JsonVal.beq]
  | .str a, .str b => by simp [JsonVal.beq]
  | .arr a, .arr b => by
      simp only [JsonVal.beq, JsonVal.arr.injEq]
      exact JsonVal.beqList_iff a b
  | .obj a, .obj b => by
      simp only [JsonVal.beq, JsonVal.obj.injEq]
      exact JsonVal.beqFields_iff a b
  | .null, .bool _ | .null, .num _ | .null, .str _ | .null, .arr _ | .null, .obj _
  | .bool _, .null | .bool _, .num _ | .bool _, .str _ | .bool _, .arr _ | .bool _, .obj _
  | .num _, .null | .num _, .bool _ | .num _, .str _ | .num _, .arr _ | .num _, .obj _
  | .str _, .null | .str _, .bool _ | .str _, .num _ | .str _, .arr _ | .str _, .obj _
  | .arr _, .null | .arr _, .bool _ | .arr _, .num _ | .arr _, .str _ | .arr _, .obj _
  | .obj _, .null | .obj _, .bool _ | .obj _, .num _ | .obj _, .str _ | .obj _, .arr _ => by
      simp [JsonVal.beq]

theorem JsonVal.beqList_iff : ∀ a b : List JsonVal, JsonVal.beqList a b = true ↔ a = b
  | [], [] => by simp [JsonVal.beqList]
  | [], _ :: _ => by simp [JsonVal.beqList]
  | _ :: _, [] => by simp [JsonVal.beqList]
  | x :: xs, y :: ys => by
      simp only [JsonVal.beqList, Bool.and_eq_true, List.cons.injEq]
      exact and_congr (JsonVal.beq_iff x y) (JsonVal.beqList_iff xs ys)

theorem JsonVal.beqFields_iff :
    ∀ a b : List (String × JsonVal), JsonVal.beqFields a b = true ↔ a = b
  | [], [] => by simp [JsonVal.beqFields]
  | [], _ :: _ => by simp [JsonVal.beqFields]
  | _ :: _, [] => by simp [JsonVal.beqFields]
  | (k, v) :: xs, (l, w) :: ys => by
      simp only [JsonVal.beqFields, Bool.and_eq_true, List.cons.injEq, Prod.mk.injEq,
        beq_iff_eq]
      rw [and_congr_right_iff.mpr (fun _ => JsonVal.beq_iff v w),
        and_congr_right_iff.mpr (fun _ => JsonVal.beqFields_iff xs ys), and_assoc]

end

instance : DecidableEq JsonVal := fun a b =>
  decidable_of_iff _ (JsonVal.beq_iff a b)

/-- JS truthiness of a value (`undefined`/`null`, `false`, `0` and `""` are
falsy; every array and object is truthy). -/
def jsTruthy : JsonVal → Bool
  | .null => false
  | .bool b => b
  | .num n => n ≠ 0
  | .str s => s ≠ ""
  | .arr _ => true
  | .obj _ => true

/-- Read a string out of a value (used where the source code can only
meaningfully receive a string; non-strings yield `""`). -/
def asStr : JsonVal → String
  | .str s => s
  | _ => ""

/-- Read the number out of a value (non-numbers yield `0`). -/
def asNum : JsonVal → Int
  | .num q => q
  | _ => 0

/-- Read an array out of a value (non-arrays yield `[]`). -/
def asArr : JsonVal → List JsonVal
  | .arr l => l
  | _ => []

/-- Read an array of strings out of a value. -/
def asStrList (v : JsonVal) : List String :=
  (asArr v).map asStr

/-- A JS object treated as a string-keyed bag (`Record<string, any>`). -/
abbrev JsRecord := List (String × JsonVal)

/-- `r[k]`: property read; a missing key reads as `undefined`, modelled
`JsonVal.null`. -/
def recordGet (r : JsRecord) (k : String) : JsonVal :=
  match r.find? (fun p => p.1 == k) with
  | some p => p.2
  | none => .null

/-- `r[k] = v`: JS property assignment — overwrites an existing key in
place, appends a fresh key at the end (JS own-key insertion order). -/
def recordSet (r : JsRecord) (k : String) (v : JsonVal) : JsRecord :=
  if r.any (fun p => p.1 == k) then
    r.map (fun p => if p.1 == k then (k, v) else p)
  else
    r ++ [(k, v)]

/-- `{...a, ...b}`: object spread, later keys override. -/
def recordSpread (a b : JsRecord) : JsRecord :=
  b.foldl (fun acc p => recordSet acc p.1 p.2) a

/-- Property access `v.k` on a dynamic value (non-objects yield
`undefined`; the embedded code only dereferences after a truthiness
guard, so the `null` default is never observed). -/
def objGet (v : JsonVal) (k : String) : JsonVal :=
  match v with
  | .obj fields => recordGet fields k
  | _ => .null

/-! ### JS string helpers

The orchestrator compares lowercased strings with `startsWith` and
`includes`.  These are modelled on the character lists underlying Lean
strings. -/

/-- `needle` is a prefix of `hay` (character-wise `==`). -/
def charsPrefix : List Char → List Char → Bool
  | [], _ => true
  | _ :: _, [] => false
  | a :: as, b :: bs => a == b && charsPrefix as bs

/-- `needle` occurs contiguously inside `hay` (JS `includes`). -/
def charsContain (needle : List Char) : List Char → Bool
  | [] => charsPrefix needle []
  | c :: rest => charsPrefix needle (c :: rest) || charsContain needle rest

/-- JS `s.toLowerCase()` (ASCII as used by the source's phrase lists). -/
def lowerChars (s : String) : List Char :=
  s.data.map Char.toLower

/-- JS `s.startsWith(p)`. -/
def strStarts (s p : String) : Bool :=
  charsPrefix p.data s.data

/-- JS `s.includes(sub)`. -/
def strIncludes (s sub : String) : Bool :=
  charsContain sub.data s.data

/-! ## Decision Engine: continuation merge
(`agent-orchestrator.service.ts`, `determineAgents` lines 218-271 and
`combineQueries` lines 279-310.) -/

/-- The continuation phrase list of `combineQueries`. -/
def continuationPhrases : List String :=
  ["that has", "with", "and also", "also", "that is", "that are", "that"]

/-- `combineQueries(previousQuery, newQuery)`: concatenate when the new
query starts with a continuation phrase; replace when it contains a
fresh-start marker (`quiero`/`busco`/`necesito`); concatenate otherwise. -/
def combineQueries (previousQuery newQuery : String) : String :=
  if continuationPhrases.any (fun phrase => charsPrefix phrase.data (lowerChars newQuery)) then
    previousQuery ++ " " ++ newQuery
  else if charsContain "quiero".data (lowerChars newQuery)
      || charsContain "busco".data (lowerChars newQuery)
      || charsContain "necesito".data (lowerChars newQuery) then
    newQuery
  else
    previousQuery ++ " " ++ newQuery

/-- `[...new Set([...])]`: de-duplication keeping the first occurrence of
each element, in order (JS `Set` insertion order). -/
def jsSetDedup : List String → List String
  | [] => []
  | x :: xs => x :: (jsSetDedup xs).filter (fun y => y ≠ x)

/-- The per-session persisted `searchContext` of
`conversation.schema` / `conversation.service` (`src/unnamed/part_022`).
Absent string fields are modelled by `""` and absent lists by `none`
(`undefined` and `""` are equally falsy everywhere the code reads them;
a present array — even `[]` — is truthy, hence the `Option`). -/
structure SearchContext where
  query : String
  location : String
  amenities : Option (List String)
  logicalOperator : String
  mongoQuery : Option JsonVal
  extractedInputs : Option JsRecord
  previousAgents : List String
  isContinuation : Bool
  lastUpdated : Nat
deriving Repr, DecidableEq

/-- The structured judgment returned by the language-model collaborator
and normalized by `determineAgents` (interface `AgentDecision`). -/
structure AgentDecision where
  agents : List String
  extractedInputs : JsRecord
  reasoning : String
  isContinuation : Bool
deriving Repr, DecidableEq

/-- First `if` block of the `determineAgents` continuation merge
(lines 228-236): merge the free-text query via `combineQueries` when both
sides have one, retain the prior query when only it exists. -/
def mergeQueryStep (ctx : SearchContext) (e : JsRecord) : JsRecord :=
  if ctx.query ≠ "" ∧ jsTruthy (recordGet e "query") then
    recordSet e "query" (.str (combineQueries ctx.query (asStr (recordGet e "query"))))
  else if ctx.query ≠ "" then
    recordSet e "query" (.str ctx.query)
  else e

/-- Second block (lines 238-241): keep the prior location when the new
turn supplies none. -/
def mergeLocationStep (ctx : SearchContext) (e : JsRecord) : JsRecord :=
  if ctx.location ≠ "" ∧ ¬jsTruthy (recordGet e "location") then
    recordSet e "location" (.str ctx.location)
  else e

/-- Third block (lines 243-253): de-duplicated set union of the amenity
lists when both exist, the prior list when only it exists. -/
def mergeAmenitiesStep (ctx : SearchContext) (e : JsRecord) : JsRecord :=
  match ctx.amenities with
  | some ca =>
      if jsTruthy (recordGet e "amenities") then
        recordSet e "amenities"
          (.arr ((jsSetDedup (ca ++ asStrList (recordGet e "amenities"))).map .str))
      else
        recordSet e "amenities" (.arr (ca.map .str))
  | none => e

/-- Fourth block (lines 255-262): keep the prior combination operator
when the new turn supplies none. -/
def mergeOperatorStep (ctx : SearchContext) (e : JsRecord) : JsRecord :=
  if ctx.logicalOperator ≠ "" ∧ ¬jsTruthy (recordGet e "logicalOperator") then
    recordSet e "logicalOperator" (.str ctx.logicalOperator)
  else e

/-- The continuation merge of `determineAgents` (lines 228-263), applied
to the new-turn extracted-parameter bag `e` when the turn is a
continuation and a prior context with `extractedInputs` exists: the four
sequential `if` blocks above, in source order (each one a JS property
write on the bag). -/
def mergeContinuation (ctx : SearchContext) (e : JsRecord) : JsRecord :=
  mergeOperatorStep ctx (mergeAmenitiesStep ctx (mergeLocationStep ctx (mergeQueryStep ctx e)))

/-- `determineAgents` after the language-model collaborator returned
`raw`: merge with the prior context on a continuation turn
(lines 218-263), otherwise pass the extracted inputs through. -/
def determineAgents (raw : AgentDecision) (searchContext : Option SearchContext) : AgentDecision :=
  match searchContext with
  | some ctx =>
      if raw.isContinuation ∧ ctx.extractedInputs.isSome then
        { raw with extractedInputs := mergeContinuation ctx raw.extractedInputs }
      else raw
  | none => raw

/-! ## Conversation context store
(`src/unnamed/part_022`, `updateSearchContext` lines 245-315; the
conversation and its `searchContext` are assumed to exist — the missing
cases only initialize an empty context first.) -/

/-- `updateSearchContext(sessionId, agentDecision, mongoQuery)`: stamp
`previousAgents`, `isContinuation` and `lastUpdated`, spread-merge the
extracted-input bag, overwrite each of the four typed fields only when
the decision supplies a truthy value, and overwrite `mongoQuery` only
when one is passed. -/
def updateSearchContext (ctx : SearchContext) (d : AgentDecision)
    (mongoQuery : Option JsonVal) (now : Nat) : SearchContext :=
  let e := d.extractedInputs
  { ctx with
    previousAgents := d.agents
    isContinuation := d.isContinuation
    lastUpdated := now
    extractedInputs := some (recordSpread (ctx.extractedInputs.getD []) e)
    query := if jsTruthy (recordGet e "query") then asStr (recordGet e "query") else ctx.query
    location :=
      if jsTruthy (recordGet e "location") then asStr (recordGet e "location") else ctx.location
    amenities :=
      if jsTruthy (recordGet e "amenities") then some (asStrList (recordGet e "amenities"))
      else ctx.amenities
    logicalOperator :=
      if jsTruthy (recordGet e "logicalOperator") then asStr (recordGet e "logicalOperator")
      else ctx.logicalOperator
    mongoQuery :=
      match mongoQuery with
      | some q => if jsTruthy q then some q else ctx.mongoQuery
      | none => ctx.mongoQuery }

/-! ## Geospatial cross-validator
(`agent-orchestrator.service.ts` `crossValidateResults` lines 769-849,
threshold 10 km, and `maps-agent.service.ts` `filterPropertiesByProximity`
lines 301-381, threshold 20 km.)

`calculateDistance` is the Haversine formula over IEEE-754 doubles
(`Math.sin`/`Math.cos`/`Math.atan2`/`Math.sqrt`); floating-point
transcendentals have no exact shallow embedding, so the distance function
is an explicit parameter `dist lat1 lng1 lat2 lng2` and every theorem
holds for all of them.  (Numbers appear in the orchestrator's control
flow only through this opaque parameter and comparisons against whole
constants, which is why `JsonVal.num` carries `Int`.)  Properties and
nearby-place responses are dynamic values (`any[]` in the source). -/

/-- The coordinate record built from one returned place:
`{lat, lng, name, type: place.types[0] || 'place'}`. -/
structure PlaceCoord where
  lat : Int
  lng : Int
  name : String
  type : String
deriving Repr, DecidableEq

/-- A distance function standing in for `calculateDistance`. -/
abbrev Distance := Int → Int → Int → Int → Int

/-- `nearbyPlacesResponses.flatMap(response => response.results.map(...))`. -/
def extractPlaceCoordinates (nearbyPlacesResponses : List JsonVal) : List PlaceCoord :=
  nearbyPlacesResponses.flatMap (fun response =>
    (asArr (objGet response "results")).map (fun place =>
      { lat := asNum (objGet (objGet place "location") "lat")
        lng := asNum (objGet (objGet place "location") "lng")
        name := asStr (objGet place "name")
        type :=
          match asArr (objGet place "types") with
          | [] => "place"
          | t :: _ => if jsTruthy t then asStr t else "place" }))

/-- The truthiness chain guarding a property's coordinates:
`property.location && property.location.coordinates &&
 property.location.coordinates.lat && property.location.coordinates.lng`. -/
def hasPropertyCoordinates (property : JsonVal) : Bool :=
  jsTruthy (objGet property "location")
    && jsTruthy (objGet (objGet property "location") "coordinates")
    && jsTruthy (objGet (objGet (objGet property "location") "coordinates") "lat")
    && jsTruthy (objGet (objGet (objGet property "location") "coordinates") "lng")

/-- `property.location.coordinates.lat`. -/
def propertyLat (property : JsonVal) : Int :=
  asNum (objGet (objGet (objGet property "location") "coordinates") "lat")

/-- `property.location.coordinates.lng`. -/
def propertyLng (property : JsonVal) : Int :=
  asNum (objGet (objGet (objGet property "location") "coordinates") "lng")

/-- One entry of the per-property `distances` list:
`{distance, name, type}`. -/
structure DistEntry where
  distance : Int
  name : String
  type : String
deriving Repr, DecidableEq

/-- The `distances` list computed for one property. -/
def propertyDistances (dist : Distance) (coords : List PlaceCoord)
    (property : JsonVal) : List DistEntry :=
  coords.map (fun coord =>
    { distance := dist (propertyLat property) (propertyLng property) coord.lat coord.lng
      name := coord.name
      type := coord.type })

/-- The shared filter predicate of both call sites (the loop body of the
final `.filter`): under `AND`, group the distances by `type` (a JS object
keyed by type, iterated in first-occurrence order) and require each group
to contain an entry within the threshold; otherwise require some entry
within the threshold. -/
def proximityPass (dist : Distance) (threshold : Int) (coords : List PlaceCoord)
    (logicalOperator : String) (property : JsonVal) : Bool :=
  let distances := propertyDistances dist coords property
  if logicalOperator = "AND" then
    let typeGroups :=
      (jsSetDedup (distances.map (fun d => d.type))).map
        (fun t => distances.filter (fun d => d.type == t))
    typeGroups.all (fun group => group.any (fun d => decide (d.distance ≤ threshold)))
  else
    distances.any (fun d => decide (d.distance ≤ threshold))

/-- `crossValidateResults(properties, nearbyPlacesResponses,
logicalOperator)` of the orchestrator: fail-open on an empty coordinate
list or when no property has coordinates, otherwise keep the
coordinate-bearing properties passing the 10 km proximity check. -/
def crossValidateResults (dist : Distance) (properties : List JsonVal)
    (nearbyPlacesResponses : List JsonVal) (logicalOperator : String) : List JsonVal :=
  let allPlaceCoordinates := extractPlaceCoordinates nearbyPlacesResponses
  if allPlaceCoordinates = [] then properties
  else
    let propertiesWithCoordinates := properties.filter hasPropertyCoordinates
    if propertiesWithCoordinates = [] then properties
    else propertiesWithCoordinates.filter (proximityPass dist 10 allPlaceCoordinates logicalOperator)

/-- `filterPropertiesByProximity(properties, nearbyPlacesResponses,
logicalOperator)` of the maps agent: identical logic at a 20 km
threshold. -/
def filterPropertiesByProximity (dist : Distance) (properties : List JsonVal)
    (nearbyPlacesResponses : List JsonVal) (logicalOperator : String) : List JsonVal :=
  let allPlaceCoordinates := extractPlaceCoordinates nearbyPlacesResponses
  if allPlaceCoordinates = [] then properties
  else
    let propertiesWithCoordinates := properties.filter hasPropertyCoordinates
    if propertiesWithCoordinates = [] then properties
    else propertiesWithCoordinates.filter (proximityPass dist 20 allPlaceCoordinates logicalOperator)

/-! ## Result merger
(`agent-orchestrator.service.ts`, `combineResults` lines 491-572 and
`mergeMongoQueries` lines 574-606.) -/

/-- An `AgentOutput` (`agent.interface.ts`): response text, optional data
bag, missing-input names (`[]` models an absent list — the code only ever
asks whether the list is non-empty). -/
structure AgentOutput where
  response : String
  data : Option JsRecord
  missingInputs : List String
deriving Repr, DecidableEq

/-- `result.data?.mongoQuery`, `undefined` when there is no data bag. -/
def dataGet (result : AgentOutput) (k : String) : JsonVal :=
  match result.data with
  | some r => recordGet r k
  | none => .null

/-- The filter of `mergeMongoQueries`:
`query && typeof query === 'object' && Object.keys(query).length > 0`
(arrays and objects have `typeof 'object'`; `null` is falsy first). -/
def mongoQueryKept (query : JsonVal) : Bool :=
  jsTruthy query
    && (match query with | .obj _ => true | .arr _ => true | .null => true | _ => false)
    && (match query with | .obj fields => fields.length > 0 | .arr l => l.length > 0 | _ => false)

/-- `mergeMongoQueries(queries)`: drop falsy/non-object/empty queries;
none left → `{}`; one left → pass it through unchanged; several left →
`{$and: [...]}`. -/
def mergeMongoQueries (queries : List JsonVal) : JsonVal :=
  let nonEmptyQueries := queries.filter mongoQueryKept
  match nonEmptyQueries with
  | [] => .obj []
  | [q] => q
  | qs => .obj [("$and", .arr qs)]

/-- The validity test of `combineResults` on a response text:
truthy and matching neither generic-failure phrase. -/
def isValidResponse (response : String) : Bool :=
  response ≠ ""
    && !strIncludes response "Lo siento, no puedo procesar"
    && !strIncludes response "ocurrió un error"

/-- The generic apology used when nothing better is available. -/
def genericApology : String :=
  "Lo siento, no puedo procesar esta solicitud en este momento."

/-- The body of the `combineResults` data loop (lines 509-517) for one
output: copy every data entry except `mongoQuery` into the accumulator,
later values overwriting earlier ones. -/
def mergeDataStep (acc : JsRecord) (r : AgentOutput) : JsRecord :=
  match r.data with
  | some fields =>
      fields.foldl (fun acc p =>
        if p.1 ≠ "mongoQuery" then recordSet acc p.1 p.2 else acc) acc
  | none => acc

/-- `combineResults(results)`.  The language-model synthesis of several
valid responses is the oracle `llmCombine` applied to the valid response
list (the prompt is a function of that list); `none` models the collaborator
throwing, in which case the code falls back to the first valid response. -/
def combineResults (llmCombine : List String → Option String)
    (results : List AgentOutput) : AgentOutput :=
  let mongoQueries :=
    (results.filter (fun r => jsTruthy (dataGet r "mongoQuery"))).map
      (fun r => dataGet r "mongoQuery")
  let combinedData : JsRecord :=
    if mongoQueries ≠ [] then [("mongoQuery", mergeMongoQueries mongoQueries)] else []
  let combinedData := results.foldl mergeDataStep combinedData
  let validResponses := (results.map (fun r => r.response)).filter isValidResponse
  let combinedResponse :=
    match validResponses with
    | v₁ :: _ :: _ =>
        match llmCombine validResponses with
        | some s => s
        | none => v₁
    | [v₁] => v₁
    | [] =>
        match results with
        | r :: _ => if r.response ≠ "" then r.response else genericApology
        | [] => genericApology
  { response := combinedResponse, data := some combinedData, missingInputs := [] }

/-! ## Execution pipeline
(`agent-orchestrator.service.ts`, `processQuery` lines 49-187,
`processWithAgents` lines 350-489, `processMapsFirst` lines 616-760,
`checkMissingInputs` lines 312-327, `generateMissingInputsResponse`
lines 329-348.)

Each registered agent's `process` is an oracle function of the full
`AgentInput` (the source agents delegate to external collaborators).  The
system message appended by `appendPreviousResultToConversationHistory`
(`conversation-utils.ts`) is one pushed `ChatMessage` whose text, a pure
function of the previous output that no orchestrator branch ever reads
back, is the oracle `historyNote`.  `storeResults` is
`propertyService.executeQuery(...).data` (`none` models the store
throwing, which the source catches).  The trace records, in order, the
validator invocations with their outputs, the route taken, every
capability execution, and every record-store call; geospatial-collaborator
calls happen only inside the maps capability, so their absence is
expressed by the absence of its `agentRun`. -/

/-- A chat message (`agent.interface.ts`). -/
structure ChatMessage where
  role : String
  content : String
deriving Repr, DecidableEq

/-- An `AgentInput` (`agent.interface.ts`). -/
structure AgentInput where
  query : String
  conversationHistory : List ChatMessage
  additionalContext : JsRecord
deriving Repr

/-- A registered agent: name, required parameter names, behavior. -/
structure RegisteredAgent where
  name : String
  requiredInputs : List String
  process : AgentInput → AgentOutput

/-- Observable steps of one `processQuery` turn. -/
inductive Event where
  | validatorRun (out : AgentOutput)
  | routeMapsFirst
  | routeFilterThenGeo
  | agentRun (name : String)
  | storeExecute (query : JsonVal)
deriving Repr, DecidableEq

/-- The collaborators and registry visible to one turn. -/
structure Env where
  agents : List RegisteredAgent
  searchContext : Option SearchContext
  llmResponse : AgentDecision
  llmCombine : List String → Option String
  storeResults : JsonVal → Option (List JsonVal)
  dist : Distance
  historyNote : AgentOutput → String

/-- `appendPreviousResultToConversationHistory(history, previousResult)`:
copy the history and push one system message summarizing the previous
output. -/
def appendPreviousResult (env : Env) (hist : List ChatMessage)
    (previousResult : AgentOutput) : List ChatMessage :=
  hist ++ [{ role := "system", content := env.historyNote previousResult }]

/-- `checkMissingInputs(agents, extractedInputs)`: every required input
whose value is falsy, first occurrence order, no duplicates. -/
def checkMissingInputs (agents : List RegisteredAgent) (extractedInputs : JsRecord) :
    List String :=
  agents.foldl (fun missing a =>
    a.requiredInputs.foldl (fun missing i =>
      if ¬jsTruthy (recordGet extractedInputs i) ∧ i ∉ missing then missing ++ [i]
      else missing) missing) []

/-- The Spanish field-name table of `generateMissingInputsResponse`. -/
def translateInput (i : String) : String :=
  if i = "location" then "ubicación"
  else if i = "amenities" then "tipos de servicios cercanos"
  else if i = "propertyId" then "identificador de la propiedad"
  else if i = "query" then "consulta"
  else i

/-- `generateMissingInputsResponse(missingInputs, reasoning)`. -/
def generateMissingInputsResponse (missingInputs : List String) : String :=
  "Claro! Para ayudarte mejor, necesito saber "
    ++ String.intercalate " y " (missingInputs.map translateInput) ++ "."

/-- The fallback output used when no agent is available. -/
def noAgentsOutput : AgentOutput :=
  { response := genericApology
    data := some [("error", .str "No agents available")]
    missingInputs := [] }

/-- The `AgentDecision` as stored into the missing-inputs data bag. -/
def decisionToJson (d : AgentDecision) : JsonVal :=
  .obj [("agents", .arr (d.agents.map .str)),
        ("extractedInputs", .obj d.extractedInputs),
        ("reasoning", .str d.reasoning),
        ("isContinuation", .bool d.isContinuation)]

/-- The sequential for-loop of `processWithAgents` after the first agent:
each later agent receives the original query, the enhanced history and
the original parameters overridden by the accumulated data; the
accumulator is `combineResults` of the previous accumulator and the new
output. -/
def runChain (env : Env) (input : AgentInput) (current : AgentOutput) :
    List RegisteredAgent → AgentOutput × List Event
  | [] => (current, [])
  | a :: rest =>
      let agentInput : AgentInput :=
        { query := input.query
          conversationHistory := appendPreviousResult env input.conversationHistory current
          additionalContext := recordSpread input.additionalContext (current.data.getD []) }
      let agentResult := a.process agentInput
      let next := combineResults env.llmCombine [current, agentResult]
      let r := runChain env input next rest
      (r.1, Event.agentRun a.name :: r.2)

/-- The whole generic chaining loop (first agent on the original input,
then `runChain`); the empty case cannot be reached by its caller. -/
def chainAll (env : Env) (input : AgentInput) :
    List RegisteredAgent → AgentOutput × List Event
  | [] => (noAgentsOutput, [])
  | a :: rest =>
      let current := a.process input
      let r := runChain env input current rest
      (r.1, Event.agentRun a.name :: r.2)

/-- The FilterAgent + MapsAgent special case of `processWithAgents`
(lines 391-445): run the filter capability, execute its produced filter
against the record store, and run the maps capability bound to the
candidate records. -/
def filterThenGeo (env : Env) (f m : RegisteredAgent) (input : AgentInput) :
    AgentOutput × List Event :=
  let filterResult := f.process input
  let mq := dataGet filterResult "mongoQuery"
  let step :=
    if jsTruthy mq then
      match env.storeResults mq with
      | some props =>
          ({ filterResult with
              data := some (recordSet (filterResult.data.getD []) "properties" (.arr props)) },
           props, [Event.storeExecute mq])
      | none => (filterResult, [], [Event.storeExecute mq])
    else (filterResult, [], [])
  let filterResult := step.1
  let properties := step.2.1
  let mapsInput : AgentInput :=
    { query := input.query
      conversationHistory := appendPreviousResult env input.conversationHistory filterResult
      additionalContext := recordSet input.additionalContext "properties" (.arr properties) }
  let mapsResult := m.process mapsInput
  (combineResults env.llmCombine [filterResult, mapsResult],
   [Event.routeFilterThenGeo, Event.agentRun f.name] ++ step.2.2 ++ [Event.agentRun m.name])

/-- `processWithAgents(agents, input)`: reorder (FilterAgent, MapsAgent,
the rest), handle the empty and single cases, take the special
filter-then-geo case when exactly those two capabilities are selected
with truthy location and amenities, otherwise chain generically. -/
def processWithAgents (env : Env) (agents : List RegisteredAgent) (input : AgentInput) :
    AgentOutput × List Event :=
  let filterAgent := agents.find? (fun a => a.name == "FilterAgent")
  let mapsAgent := agents.find? (fun a => a.name == "MapsAgent")
  let otherAgents := agents.filter (fun a => a.name ≠ "FilterAgent" ∧ a.name ≠ "MapsAgent")
  let orderedAgents := filterAgent.toList ++ mapsAgent.toList ++ otherAgents
  if orderedAgents.length = 0 then (noAgentsOutput, [])
  else if orderedAgents.length = 1 then
    match orderedAgents with
    | a :: _ => (a.process input, [Event.agentRun a.name])
    | [] => (noAgentsOutput, [])
  else
    match filterAgent, mapsAgent with
    | some f, some m =>
        if orderedAgents.length = 2
            ∧ jsTruthy (recordGet input.additionalContext "location")
            ∧ jsTruthy (recordGet input.additionalContext "amenities") then
          filterThenGeo env f m input
        else chainAll env input orderedAgents
    | _, _ => chainAll env input orderedAgents

/-- The fallback output when MapsAgent or FilterAgent is unregistered. -/
def requiredAgentsMissingOutput : AgentOutput :=
  { response := genericApology
    data := some [("error", .str "Required agents not available")]
    missingInputs := [] }

/-- The additional context `{location, amenities, logicalOperator ||
'OR'}` built twice inside `processMapsFirst`. -/
def mapsFirstContext (e : JsRecord) : JsRecord :=
  [("location", recordGet e "location"),
   ("amenities", recordGet e "amenities"),
   ("logicalOperator",
     if jsTruthy (recordGet e "logicalOperator") then recordGet e "logicalOperator"
     else .str "OR")]

/-- The maps-then-filter body of `processMapsFirst` after its validation
step (lines 667-746). -/
def mapsFirstFlow (env : Env) (m f : RegisteredAgent) (e : JsRecord)
    (query : String) (hist : List ChatMessage) : AgentOutput × List Event :=
  let mapsResult := m.process { query := query, conversationHistory := hist,
                                additionalContext := mapsFirstContext e }
  let np := dataGet mapsResult "nearbyPlaces"
  if jsTruthy np then
    let filterInput : AgentInput :=
      { query := query
        conversationHistory := appendPreviousResult env hist mapsResult
        additionalContext := recordSet e "nearbyPlaces" np }
    let filterResult := f.process filterInput
    let mq := dataGet filterResult "mongoQuery"
    if jsTruthy mq then
      match env.storeResults mq with
      | some properties =>
          let op :=
            asStr (if jsTruthy (recordGet e "logicalOperator") then recordGet e "logicalOperator"
                   else .str "OR")
          let validated := crossValidateResults env.dist properties (asArr np) op
          let data := recordSpread (filterResult.data.getD []) (mapsResult.data.getD [])
          let data := recordSet data "properties" (.arr validated)
          let data := recordSet data "originalProperties" (.arr properties)
          let data := recordSet data "validatedCount" (.num validated.length)
          let data := recordSet data "totalCount" (.num properties.length)
          ({ response := filterResult.response, data := some data, missingInputs := [] },
           [Event.agentRun m.name, Event.agentRun f.name, Event.storeExecute mq])
      | none =>
          (filterResult, [Event.agentRun m.name, Event.agentRun f.name, Event.storeExecute mq])
    else (filterResult, [Event.agentRun m.name, Event.agentRun f.name])
  else (mapsResult, [Event.agentRun m.name])

/-- `processMapsFirst(agentDecision, sessionId, query, history)`:
re-validate the maps inputs when a validator is registered, then run the
geo-then-filter flow. -/
def processMapsFirst (env : Env) (decision : AgentDecision)
    (query : String) (hist : List ChatMessage) : AgentOutput × List Event :=
  let e := decision.extractedInputs
  match env.agents.find? (fun a => a.name == "MapsAgent"),
        env.agents.find? (fun a => a.name == "FilterAgent") with
  | some m, some f =>
      (match env.agents.find? (fun a => a.name == "ValidatorAgent") with
       | some v =>
           let vres := v.process { query := query, conversationHistory := hist,
                                   additionalContext := mapsFirstContext e }
           if vres.missingInputs ≠ [] then (vres, [Event.validatorRun vres])
           else
             let r := mapsFirstFlow env m f e query hist
             (r.1, Event.validatorRun vres :: r.2)
       | none => mapsFirstFlow env m f e query hist)
  | _, _ => (requiredAgentsMissingOutput, [])

/-- Steps 5-12 of `processQuery`: fast-path selection, agent selection,
missing-input check, generic pipeline.  (The step-11 context write has no
observable effect within a turn.) -/
def afterValidation (env : Env) (decision : AgentDecision)
    (query : String) (hist : List ChatMessage) : AgentOutput × List Event :=
  let e := decision.extractedInputs
  let needsMapsAgent := decision.agents.contains "MapsAgent"
  if needsMapsAgent ∧ jsTruthy (recordGet e "location") ∧ jsTruthy (recordGet e "amenities") then
    let r := processMapsFirst env decision query hist
    (r.1, Event.routeMapsFirst :: r.2)
  else
    let selectedAgents :=
      decision.agents.filterMap (fun n => env.agents.find? (fun a => a.name == n))
    if selectedAgents.length = 0 then (noAgentsOutput, [])
    else
      let missingInputs := checkMissingInputs selectedAgents e
      if missingInputs ≠ [] then
        ({ response := generateMissingInputsResponse missingInputs
           data := some [("agentDecision", decisionToJson decision),
                         ("missingInputs", .arr (missingInputs.map .str))]
           missingInputs := missingInputs }, [])
      else
        processWithAgents env selectedAgents
          { query := query, conversationHistory := hist, additionalContext := e }

/-- `processQuery(query, sessionId, conversationHistory)`: read the
context, let the Decision Engine plan and merge, validate when a
`ValidatorAgent` is registered (returning its clarification on any
flagged field), then select the route.  (The step-3 context write has no
observable effect within the turn.) -/
def processQuery (env : Env) (query : String) (hist : List ChatMessage) :
    AgentOutput × List Event :=
  let decision := determineAgents env.llmResponse env.searchContext
  match env.agents.find? (fun a => a.name == "ValidatorAgent") with
  | some v =>
      let vres := v.process { query := query, conversationHistory := hist,
                              additionalContext := decision.extractedInputs }
      if vres.missingInputs ≠ [] then (vres, [Event.validatorRun vres])
      else
        let r := afterValidation env decision query hist
        (r.1, Event.validatorRun vres :: r.2)
  | none => afterValidation env decision query hist

/-- The capability executions (by name, in order) observable in a trace. -/
def exNames (tr : List Event) : List String :=
  tr.filterMap (fun ev =>
    match ev with
    | Event.agentRun n => some n
    | _ => none)

/-! ## Concrete instances for counterexamples and witnesses -/

/-- A simple computable distance function (squared euclidean, which the
kernel evaluates directly) used to instantiate the abstract `Distance`
parameter on concrete inputs. -/
def sqDist : Distance := fun lat1 lng1 lat2 lng2 =>
  (lat1 - lat2) * (lat1 - lat2) + (lng1 - lng2) * (lng1 - lng2)

/-- A prior context holding only the query `"casa"`. -/
def ctxQueryCasa : SearchContext :=
  { query := "casa", location := "", amenities := none, logicalOperator := "",
    mongoQuery := none, extractedInputs := some [], previousAgents := [],
    isContinuation := false, lastUpdated := 0 }

/-- A new-turn bag whose query starts with the continuation phrase
`"with"`. -/
def bagWithPool : JsRecord := [("query", .str "with pool")]

/-- The once-merged bag for the idempotence counterexample. -/
def mergedOnce : JsRecord := mergeContinuation ctxQueryCasa bagWithPool

/-- The decision carrying the once-merged bag, as stored back by
`processQuery` step 3. -/
def decisionMergedOnce : AgentDecision :=
  { agents := ["FilterAgent"], extractedInputs := mergedOnce,
    reasoning := "", isContinuation := true }

/-- A prior context holding the amenity list `["hospital"]`. -/
def ctxHospital : SearchContext :=
  { query := "casa", location := "Guadalajara", amenities := some ["hospital"],
    logicalOperator := "OR", mongoQuery := none, extractedInputs := some [],
    previousAgents := [], isContinuation := false, lastUpdated := 0 }

/-- A partial update supplying only the amenity list `["school"]`. -/
def updSchool : AgentDecision :=
  { agents := ["FilterAgent"], extractedInputs := [("amenities", .arr [.str "school"])],
    reasoning := "", isContinuation := true }

/-- A record without coordinates. -/
def recNoCoords : JsonVal := .obj [("id", .str "A")]

/-- A record at latitude 1, longitude 1. -/
def recAtOne : JsonVal :=
  .obj [("id", .str "B"),
        ("location", .obj [("coordinates", .obj [("lat", .num 1), ("lng", .num 1)])])]

/-- One lookup response with a single hospital at (1, 1). -/
def respHospitalAtOne : JsonVal :=
  .obj [("results", .arr [
    .obj [("location", .obj [("lat", .num 1), ("lng", .num 1)]),
          ("name", .str "H"), ("types", .arr [.str "hospital"])]])]

/-- One lookup response with a single school at (2, 1), at squared
distance 1 from `recAtOne`. -/
def respSchoolNearOne : JsonVal :=
  .obj [("results", .arr [
    .obj [("location", .obj [("lat", .num 2), ("lng", .num 1)]),
          ("name", .str "S"), ("types", .arr [.str "school"])]])]

/-- An output whose text matches the `'ocurrió un error'` failure phrase. -/
def errorOutput : AgentOutput :=
  { response := "ocurrió un error grave", data := none, missingInputs := [] }

/-- A stub capability returning a fixed plain output. -/
def stubAgent (n : String) : RegisteredAgent :=
  { name := n, requiredInputs := [], process := fun _ => ⟨"ok", none, []⟩ }

/-- A stub validator flagging `location` on every input. -/
def flaggingValidator : RegisteredAgent :=
  { name := "ValidatorAgent", requiredInputs := [],
    process := fun _ => ⟨"aclara la ubicación", none, ["location"]⟩ }

/-- An environment whose plan selects exactly the filtering and
geospatial capabilities with location and amenities present. -/
def envFilterMaps : Env :=
  { agents := [stubAgent "FilterAgent", stubAgent "MapsAgent"]
    searchContext := none
    llmResponse :=
      { agents := ["FilterAgent", "MapsAgent"]
        extractedInputs := [("location", .str "Tlaquepaque"), ("amenities", .arr [.str "hospital"])]
        reasoning := "r", isContinuation := false }
    llmCombine := fun _ => none
    storeResults := fun _ => none
    dist := sqDist
    historyNote := fun _ => "" }

/-- An environment whose plan lists the same capability name twice. -/
def envDupProperty : Env :=
  { agents := [stubAgent "PropertyAgent"]
    searchContext := none
    llmResponse :=
      { agents := ["PropertyAgent", "PropertyAgent"], extractedInputs := []
        reasoning := "r", isContinuation := false }
    llmCombine := fun _ => none
    storeResults := fun _ => none
    dist := sqDist
    historyNote := fun _ => "" }

/-- An environment with a validator that flags every turn. -/
def envFlagging : Env :=
  { envFilterMaps with
    agents := [flaggingValidator, stubAgent "FilterAgent", stubAgent "MapsAgent"] }

/-! ## Basic lemmas about the JS-object and `Set` models -/

theorem find?_set_map_eq (k : String) (v : JsonVal) :
    ∀ r : JsRecord, r.any (fun p => p.1 == k) = true →
      (r.map (fun p => if p.1 == k then (k, v) else p)).find? (fun p => p.1 == k) =
        some (k, v)
  | p :: r, h => by
      by_cases hp : p.1 = k
      · rw [List.map_cons, show (if p.1 == k then (k, v) else p) = (k, v) by simp [hp],
          List.find?_cons_of_pos _ (by simp)]
      · have hr : r.any (fun p => p.1 == k) = true := by
          simpa [List.any_cons, hp] using h
        rw [List.map_cons, show (if p.1 == k then (k, v) else p) = p by simp [hp],
          List.find?_cons_of_neg _ (by simpa using hp)]
        exact find?_set_map_eq k v r hr

theorem find?_set_map_ne (k : String) (v : JsonVal) (k' : String) (h : k' ≠ k) :
    ∀ r : JsRecord,
      (r.map (fun p => if p.1 == k then (k, v) else p)).find? (fun p => p.1 == k') =
        r.find? (fun p => p.1 == k')
  | [] => rfl
  | p :: r => by
      by_cases hp : p.1 = k
      · rw [List.map_cons, show (if p.1 == k then (k, v) else p) = (k, v) by simp [hp],
          List.find?_cons_of_neg _ (by simpa using fun hkk : k = k' => h hkk.symm),
          List.find?_cons_of_neg _ (by simpa [hp] using fun hkk : k = k' => h hkk.symm)]
        exact find?_set_map_ne k v k' h r
      · by_cases hp' : p.1 = k'
        · rw [List.map_cons, show (if p.1 == k then (k, v) else p) = p by simp [hp],
            List.find?_cons_of_pos _ (by simpa using hp'),
            List.find?_cons_of_pos _ (by simpa using hp')]
        · rw [List.map_cons, show (if p.1 == k then (k, v) else p) = p by simp [hp],
            List.find?_cons_of_neg _ (by simpa using hp'),
            List.find?_cons_of_neg _ (by simpa using hp')]
          exact find?_set_map_ne k v k' h r

theorem recordGet_set (r : JsRecord) (k : String) (v : JsonVal) (k' : String) :
    recordGet (recordSet r k v) k' = if k' = k then v else recordGet r k' := by
  by_cases h : r.any (fun p => p.1 == k)
  · have hset : recordSet r k v = r.map (fun p => if p.1 == k then (k, v) else p) := by
      unfold recordSet
      rw [if_pos h]
    rw [hset]
    by_cases hk : k' = k
    · subst hk
      unfold recordGet
      rw [find?_set_map_eq k' v r h]
      simp
    · unfold recordGet
      rw [find?_set_map_ne k v k' hk r, if_neg hk]
  · have hset : recordSet r k v = r ++ [(k, v)] := by
      unfold recordSet
      rw [if_neg h]
    rw [hset]
    unfold recordGet
    rw [List.find?_append]
    by_cases hk : k' = k
    · subst hk
      have hn : r.find? (fun p => p.1 == k') = none := by
        rw [List.find?_eq_none]
        intro x hx hb
        exact h (List.any_eq_true.mpr ⟨x, hx, hb⟩)
      rw [hn]
      simp [List.find?_cons_of_pos _ (show ((k', v).1 == k') = true by simp)]
    · rw [if_neg hk]
      cases hfind : r.find? (fun p => p.1 == k') with
      | some p => simp [hfind]
      | none =>
          simp [hfind, show ¬k = k' from fun hkk => hk hkk.symm]

theorem recordGet_set_eq (r : JsRecord) (k : String) (v : JsonVal) :
    recordGet (recordSet r k v) k = v := by
  simp [recordGet_set]

theorem recordGet_set_ne (r : JsRecord) (k : String) (v : JsonVal) (k' : String)
    (h : k' ≠ k) : recordGet (recordSet r k v) k' = recordGet r k' := by
  simp [recordGet_set, h]

theorem mem_jsSetDedup {y : String} : ∀ {l : List String}, y ∈ jsSetDedup l ↔ y ∈ l
  | [] => Iff.rfl
  | x :: xs => by
      by_cases hy : y = x
      · simp [jsSetDedup, hy]
      · simp [jsSetDedup, hy, List.mem_filter, mem_jsSetDedup (l := xs)]

theorem jsSetDedup_nodup : ∀ l : List String, (jsSetDedup l).Nodup
  | [] => List.nodup_nil
  | x :: xs => by
      refine List.nodup_cons.mpr ⟨?_, (jsSetDedup_nodup xs).filter _⟩
      intro hx
      exact absurd (List.of_mem_filter hx) (by simp)

theorem jsSetDedup_eq_self : ∀ {l : List String}, l.Nodup → jsSetDedup l = l
  | [], _ => rfl
  | x :: xs, h => by
      have hx : x ∉ xs := (List.nodup_cons.mp h).1
      have ih := jsSetDedup_eq_self (List.nodup_cons.mp h).2
      simp only [jsSetDedup, ih]
      rw [List.filter_eq_self.mpr]
      intro a ha
      simpa using fun hax : a = x => hx (hax ▸ ha)

theorem jsSetDedup_idem (l : List String) : jsSetDedup (jsSetDedup l) = jsSetDedup l :=
  jsSetDedup_eq_self (jsSetDedup_nodup l)

theorem jsSetDedup_filter (x : String) :
    ∀ l : List String,
      (jsSetDedup l).filter (fun y => y ≠ x) = jsSetDedup (l.filter (fun y => y ≠ x))
  | [] => rfl
  | z :: zs => by
      by_cases hz : z = x
      · subst hz
        simp only [jsSetDedup, List.filter_cons]
        rw [if_neg (by simp), List.filter_filter]
        simpa using jsSetDedup_filter z zs
      · have hq : (decide (z ≠ x)) = true := by simpa using hz
        simp only [jsSetDedup, List.filter_cons, hq, if_true]
        congr 1
        rw [← jsSetDedup_filter x zs, List.filter_filter, List.filter_filter]
        exact List.filter_congr fun a _ => Bool.and_comm _ _

theorem jsSetDedup_append_mem (y : String) (l₂ : List String) :
    ∀ l₁ : List String, y ∈ l₁ → jsSetDedup (l₁ ++ y :: l₂) = jsSetDedup (l₁ ++ l₂)
  | [], hy => absurd hy (by simp)
  | z :: l₁', hy => by
      by_cases hz : y = z
      · subst hz
        rw [List.cons_append, List.cons_append]
        simp only [jsSetDedup]
        congr 1
        rw [jsSetDedup_filter, jsSetDedup_filter]
        congr 1
        simp [List.filter_append, List.filter_cons]
      · have hy' : y ∈ l₁' := by
          rcases List.mem_cons.mp hy with h | h
          · exact absurd h hz
          · exact h
        rw [List.cons_append, List.cons_append]
        simp only [jsSetDedup]
        rw [jsSetDedup_append_mem y l₂ l₁' hy']

theorem jsSetDedup_append_subset :
    ∀ (b u : List String), (∀ y ∈ b, y ∈ u) → jsSetDedup (u ++ b) = jsSetDedup u
  | [], u, _ => by simp
  | y :: b', u, h => by
      rw [jsSetDedup_append_mem y b' u (h y (by simp)),
        jsSetDedup_append_subset b' u (fun z hz => h z (by simp [hz]))]

/-! ## Claim C7: context-store put -/

/-- C7 — counterexample.  The context store's `updateSearchContext` does
not take the de-duplicated set union of the prior and new amenity lists:
with prior amenities `["hospital"]` and an update supplying
`["school"]`, the stored list becomes `["school"]`, not the union
`["hospital", "school"]` (while last-updated is stamped as claimed). -/
theorem updateSearchContext_replaces_amenities :
    (updateSearchContext ctxHospital updSchool none 5).amenities = some ["school"] ∧
    some ["school"] ≠ some (jsSetDedup (["hospital"] ++ ["school"])) ∧
    (updateSearchContext ctxHospital updSchool none 5).lastUpdated = 5 := by
  decide

/-- C7 — amended claim.  The put operation retains every field the update
does not supply (falsy in the update bag, or no filter passed), stamps
last-updated, and — where the original claim said "set union" — replaces
the amenity list wholesale with the supplied one. -/
theorem updateSearchContext_monotonic_fields (ctx : SearchContext) (d : AgentDecision)
    (mq : Option JsonVal) (now : Nat) :
    (jsTruthy (recordGet d.extractedInputs "query") = false →
      (updateSearchContext ctx d mq now).query = ctx.query) ∧
    (jsTruthy (recordGet d.extractedInputs "location") = false →
      (updateSearchContext ctx d mq now).location = ctx.location) ∧
    (jsTruthy (recordGet d.extractedInputs "amenities") = false →
      (updateSearchContext ctx d mq now).amenities = ctx.amenities) ∧
    (jsTruthy (recordGet d.extractedInputs "logicalOperator") = false →
      (updateSearchContext ctx d mq now).logicalOperator = ctx.logicalOperator) ∧
    (mq = none → (updateSearchContext ctx d mq now).mongoQuery = ctx.mongoQuery) ∧
    (jsTruthy (recordGet d.extractedInputs "amenities") = true →
      (updateSearchContext ctx d mq now).amenities =
        some (asStrList (recordGet d.extractedInputs "amenities"))) ∧
    (updateSearchContext ctx d mq now).lastUpdated = now := by
  refine ⟨fun h => ?_, fun h => ?_, fun h => ?_, fun h => ?_, fun h => ?_, fun h => ?_, ?_⟩ <;>
    simp [updateSearchContext, *]

/-- Closed instantiation of `updateSearchContext_monotonic_fields`. -/
theorem updateSearchContext_monotonic_fields_witness :
    (updateSearchContext ctxHospital updSchool none 7).query = ctxHospital.query ∧
    (updateSearchContext ctxHospital updSchool none 7).mongoQuery = ctxHospital.mongoQuery ∧
    (updateSearchContext ctxHospital updSchool none 7).lastUpdated = 7 := by
  have h := updateSearchContext_monotonic_fields ctxHospital updSchool none 7
  exact ⟨h.1 (by decide), h.2.2.2.2.1 rfl, h.2.2.2.2.2.2⟩

/-! ## Claim C8: structured-filter combination -/

theorem recordGet_mergeDataStep_mongo (r : AgentOutput) (acc : JsRecord) :
    recordGet (mergeDataStep acc r) "mongoQuery" = recordGet acc "mongoQuery" := by
  unfold mergeDataStep
  cases r.data with
  | none => rfl
  | some fields =>
      induction fields generalizing acc with
      | nil => rfl
      | cons p fields ih =>
          simp only [List.foldl_cons]
          rw [ih]
          by_cases hp : p.1 ≠ "mongoQuery"
          · rw [if_pos hp, recordGet_set_ne _ _ _ _ (Ne.symm hp)]
          · rw [if_neg hp]

theorem recordGet_foldl_mergeDataStep_mongo (results : List AgentOutput) :
    ∀ acc : JsRecord,
      recordGet (results.foldl mergeDataStep acc) "mongoQuery" = recordGet acc "mongoQuery" := by
  induction results with
  | nil => intro acc; rfl
  | cons r results ih =>
      intro acc
      rw [List.foldl_cons, ih, recordGet_mergeDataStep_mongo]

/-- C8 — confirmed.  `mergeMongoQueries` discards falsy, non-object and
empty-object filters; zero remaining yield the empty filter `{}`, exactly
one remaining is passed through object-identical, and two or more yield a
single `$and` conjunction referencing all fragments.  Moreover the merged
filter reaches the combined output's `mongoQuery` key untouched by the
generic data merge (which skips that key). -/
theorem mergeMongoQueries_combination :
    (∀ queries : List JsonVal,
      (queries.filter mongoQueryKept = [] → mergeMongoQueries queries = .obj []) ∧
      (∀ q, queries.filter mongoQueryKept = [q] → mergeMongoQueries queries = q) ∧
      (2 ≤ (queries.filter mongoQueryKept).length →
        mergeMongoQueries queries = .obj [("$and", .arr (queries.filter mongoQueryKept))])) ∧
    (∀ (llm : List String → Option String) (results : List AgentOutput),
      (results.filter (fun r => jsTruthy (dataGet r "mongoQuery"))).map
          (fun r => dataGet r "mongoQuery") ≠ [] →
      recordGet ((combineResults llm results).data.getD []) "mongoQuery" =
        mergeMongoQueries ((results.filter (fun r => jsTruthy (dataGet r "mongoQuery"))).map
          (fun r => dataGet r "mongoQuery"))) := by
  constructor
  · intro queries
    refine ⟨fun h => ?_, fun q h => ?_, fun h => ?_⟩
    · unfold mergeMongoQueries
      rw [h]
    · unfold mergeMongoQueries
      rw [h]
    · rcases hq : queries.filter mongoQueryKept with _ | ⟨a, _ | ⟨b, t⟩⟩
      · rw [hq] at h; simp at h
      · rw [hq] at h; simp at h
      · unfold mergeMongoQueries
        rw [hq]
  · intro llm results h
    unfold combineResults
    simp only [ne_eq, h, not_false_eq_true, if_true, Option.getD_some]
    rw [recordGet_foldl_mergeDataStep_mongo]
    rfl

/-- Closed instantiation of `mergeMongoQueries_combination`: the two
concrete fragments of §8 conjoin, and a filter merged with an empty one
passes through unchanged. -/
theorem mergeMongoQueries_combination_witness :
    mergeMongoQueries [.obj [("propertyType", .str "Casas")],
        .obj [("location.city", .str "Guadalajara")]] =
      .obj [("$and", .arr [.obj [("propertyType", .str "Casas")],
        .obj [("location.city", .str "Guadalajara")]])] ∧
    mergeMongoQueries [.obj [("propertyType", .str "Casas")], .obj []] =
      .obj [("propertyType", .str "Casas")] := by
  refine ⟨mergeMongoQueries_combination.1 _ |>.2.2 (by decide), ?_⟩
  exact mergeMongoQueries_combination.1 _ |>.2.1 _ (by decide)

/-! ## Claim C9: response-text selection -/

/-- C9 — counterexample.  When every response text is discarded as a
generic-failure phrase, the merged response is not the fixed generic
apology: it falls back to the first output's raw (discarded) text. -/
theorem combineResults_no_valid_uses_first_raw :
    (combineResults (fun _ => none) [errorOutput]).response = "ocurrió un error grave" ∧
    isValidResponse "ocurrió un error grave" = false ∧
    "ocurrió un error grave" ≠ genericApology := by
  decide

/-- C9 — amended claim.  After discarding generic-failure texts: more
than one valid text left → the language-model synthesis (first valid
text when synthesis fails); exactly one → that text verbatim; none → the
first output's raw response text when it is non-empty, and only
otherwise the fixed generic apology. -/
theorem combineResults_response_selection (llm : List String → Option String)
    (results : List AgentOutput) :
    (∀ v₁ v₂ rest s,
      (results.map (fun r => r.response)).filter isValidResponse = v₁ :: v₂ :: rest →
      llm (v₁ :: v₂ :: rest) = some s →
      (combineResults llm results).response = s) ∧
    (∀ v₁ v₂ rest,
      (results.map (fun r => r.response)).filter isValidResponse = v₁ :: v₂ :: rest →
      llm (v₁ :: v₂ :: rest) = none →
      (combineResults llm results).response = v₁) ∧
    (∀ v, (results.map (fun r => r.response)).filter isValidResponse = [v] →
      (combineResults llm results).response = v) ∧
    ((results.map (fun r => r.response)).filter isValidResponse = [] →
      (combineResults llm results).response =
        match results with
        | r :: _ => if r.response ≠ "" then r.response else genericApology
        | [] => genericApology) := by
  refine ⟨fun v₁ v₂ rest s hv hs => ?_, fun v₁ v₂ rest hv hs => ?_, fun v hv => ?_,
    fun hv => ?_⟩
  · unfold combineResults
    rw [hv]
    simp [hs]
  · unfold combineResults
    rw [hv]
    simp [hs]
  · unfold combineResults
    rw [hv]
  · unfold combineResults
    rw [hv]

/-- Closed instantiation of `combineResults_response_selection`. -/
theorem combineResults_response_selection_witness :
    (combineResults (fun _ => some "síntesis")
      [⟨"hay 3 casas", none, []⟩, ⟨"hay parques cerca", none, []⟩]).response = "síntesis" := by
  exact (combineResults_response_selection (fun _ => some "síntesis")
    [⟨"hay 3 casas", none, []⟩, ⟨"hay parques cerca", none, []⟩]).1
    "hay 3 casas" "hay parques cerca" [] "síntesis" (by decide) rfl

/-! ## Claims C2 and C4: geospatial cross-validation -/

theorem proximityPass_or (dist : Distance) (th : Int) (coords : List PlaceCoord)
    (op : String) (p : JsonVal) (h : op ≠ "AND") :
    proximityPass dist th coords op p = true ↔
      ∃ c ∈ coords, dist (propertyLat p) (propertyLng p) c.lat c.lng ≤ th := by
  unfold proximityPass
  rw [if_neg h]
  simp [propertyDistances, List.any_eq_true]

theorem proximityPass_and (dist : Distance) (th : Int) (coords : List PlaceCoord)
    (p : JsonVal) :
    proximityPass dist th coords "AND" p = true ↔
      ∀ t ∈ coords.map (fun c => c.type),
        ∃ c ∈ coords, c.type = t ∧ dist (propertyLat p) (propertyLng p) c.lat c.lng ≤ th := by
  unfold proximityPass
  rw [if_pos rfl]
  rw [List.all_eq_true]
  constructor
  · intro hall t ht
    have ht' : t ∈ (propertyDistances dist coords p).map (fun d => d.type) := by
      simpa [propertyDistances, List.map_map, Function.comp] using ht
    have hg := hall _ (List.mem_map_of_mem _ (mem_jsSetDedup.mpr ht'))
    rcases List.any_eq_true.mp hg with ⟨d, hd, hdist⟩
    have hdm := (List.mem_filter.mp hd).1
    have hdt := (List.mem_filter.mp hd).2
    rcases List.mem_map.mp hdm with ⟨c, hc, rfl⟩
    exact ⟨c, hc, by simpa using hdt, by simpa using hdist⟩
  · intro hex g hg
    rcases List.mem_map.mp hg with ⟨t, ht, rfl⟩
    have ht' : t ∈ coords.map (fun c => c.type) := by
      have := mem_jsSetDedup.mp ht
      simpa [propertyDistances, List.map_map, Function.comp] using this
    rcases hex t ht' with ⟨c, hc, hct, hcd⟩
    apply List.any_eq_true.mpr
    refine ⟨⟨dist (propertyLat p) (propertyLng p) c.lat c.lng, c.name, c.type⟩,
      List.mem_filter.mpr ⟨?_, by simpa using hct⟩, by simpa using hcd⟩
    exact List.mem_map_of_mem _ hc

theorem mem_crossValidateResults (dist : Distance) (props responses : List JsonVal)
    (op : String) (p : JsonVal) (hp : p ∈ props) (hc : hasPropertyCoordinates p = true)
    (hne : extractPlaceCoordinates responses ≠ []) :
    p ∈ crossValidateResults dist props responses op ↔
      proximityPass dist 10 (extractPlaceCoordinates responses) op p = true := by
  unfold crossValidateResults
  rw [if_neg hne]
  have hfil : p ∈ props.filter hasPropertyCoordinates := List.mem_filter.mpr ⟨hp, hc⟩
  rw [if_neg (List.ne_nil_of_mem hfil)]
  simp [List.mem_filter, hp, hc]

theorem mem_filterPropertiesByProximity (dist : Distance) (props responses : List JsonVal)
    (op : String) (p : JsonVal) (hp : p ∈ props) (hc : hasPropertyCoordinates p = true)
    (hne : extractPlaceCoordinates responses ≠ []) :
    p ∈ filterPropertiesByProximity dist props responses op ↔
      proximityPass dist 20 (extractPlaceCoordinates responses) op p = true := by
  unfold filterPropertiesByProximity
  rw [if_neg hne]
  have hfil : p ∈ props.filter hasPropertyCoordinates := List.mem_filter.mpr ⟨hp, hc⟩
  rw [if_neg (List.ne_nil_of_mem hfil)]
  simp [List.mem_filter, hp, hc]

/-- C4 — confirmed.  For every distance function, every record with
coordinates and every non-empty derived point list: under OR the record
passes iff some point of any category is within the threshold; under AND
it passes iff every distinct category present among the returned points
has at least one point within the threshold — grouped per category.
The orchestrator's cross-validator uses threshold 10, the maps agent's
candidate filter threshold 20. -/
theorem crossValidate_and_or_semantics (dist : Distance) (props responses : List JsonVal)
    (p : JsonVal) (hp : p ∈ props) (hc : hasPropertyCoordinates p = true)
    (hne : extractPlaceCoordinates responses ≠ []) :
    (p ∈ crossValidateResults dist props responses "OR" ↔
      ∃ c ∈ extractPlaceCoordinates responses,
        dist (propertyLat p) (propertyLng p) c.lat c.lng ≤ 10) ∧
    (p ∈ crossValidateResults dist props responses "AND" ↔
      ∀ t ∈ (extractPlaceCoordinates responses).map (fun c => c.type),
        ∃ c ∈ extractPlaceCoordinates responses,
          c.type = t ∧ dist (propertyLat p) (propertyLng p) c.lat c.lng ≤ 10) ∧
    (p ∈ filterPropertiesByProximity dist props responses "OR" ↔
      ∃ c ∈ extractPlaceCoordinates responses,
        dist (propertyLat p) (propertyLng p) c.lat c.lng ≤ 20) ∧
    (p ∈ filterPropertiesByProximity dist props responses "AND" ↔
      ∀ t ∈ (extractPlaceCoordinates responses).map (fun c => c.type),
        ∃ c ∈ extractPlaceCoordinates responses,
          c.type = t ∧ dist (propertyLat p) (propertyLng p) c.lat c.lng ≤ 20) := by
  refine ⟨?_, ?_, ?_, ?_⟩
  · rw [mem_crossValidateResults dist props responses "OR" p hp hc hne,
      proximityPass_or dist 10 _ "OR" p (by decide)]
  · rw [mem_crossValidateResults dist props responses "AND" p hp hc hne,
      proximityPass_and dist 10 _ p]
  · rw [mem_filterPropertiesByProximity dist props responses "OR" p hp hc hne,
      proximityPass_or dist 20 _ "OR" p (by decide)]
  · rw [mem_filterPropertiesByProximity dist props responses "AND" p hp hc hne,
      proximityPass_and dist 20 _ p]

/-- Closed instantiation of `crossValidate_and_or_semantics`: a record
with a hospital and a school both nearby passes under AND. -/
theorem crossValidate_and_or_semantics_witness :
    recAtOne ∈ crossValidateResults sqDist [recAtOne]
      [respHospitalAtOne, respSchoolNearOne] "AND" := by
  exact (crossValidate_and_or_semantics sqDist [recAtOne]
    [respHospitalAtOne, respSchoolNearOne] recAtOne (by decide) (by decide)
    (by decide)).2.1.mpr (by decide)

/-- C2 — counterexample.  When the point list is non-empty and some
other record has coordinates, a record lacking coordinates is dropped by
the cross-validator, not passed through. -/
theorem crossValidate_drops_uncoordinated :
    crossValidateResults sqDist [recNoCoords, recAtOne] [respHospitalAtOne] "OR" = [recAtOne] ∧
    recNoCoords ∈ [recNoCoords, recAtOne] ∧
    recNoCoords ∉ crossValidateResults sqDist [recNoCoords, recAtOne] [respHospitalAtOne] "OR" ∧
    hasPropertyCoordinates recNoCoords = false := by
  decide

/-- C2 — amended claim.  The cross-validator is fail-open only batchwise:
an empty derived point list, or an input batch in which no record has
coordinates, passes the entire input through unfiltered; but when points
exist and at least one record has coordinates, every record in the
output has coordinates — records lacking them are dropped. -/
theorem crossValidate_fail_open (dist : Distance) (props responses : List JsonVal)
    (op : String) :
    (extractPlaceCoordinates responses = [] →
      crossValidateResults dist props responses op = props) ∧
    (props.filter hasPropertyCoordinates = [] →
      crossValidateResults dist props responses op = props) ∧
    (∀ p ∈ crossValidateResults dist props responses op,
      extractPlaceCoordinates responses ≠ [] → props.filter hasPropertyCoordinates ≠ [] →
      hasPropertyCoordinates p = true) := by
  refine ⟨fun h => ?_, fun h => ?_, fun p hp h1 h2 => ?_⟩
  · unfold crossValidateResults
    rw [if_pos h]
  · unfold crossValidateResults
    by_cases h1 : extractPlaceCoordinates responses = []
    · rw [if_pos h1]
    · rw [if_neg h1, if_pos h]
  · unfold crossValidateResults at hp
    rw [if_neg h1, if_neg h2] at hp
    exact (List.mem_filter.mp (List.mem_filter.mp hp).1).2

/-- Closed instantiation of `crossValidate_fail_open`: an empty lookup
batch returns the whole input list. -/
theorem crossValidate_fail_open_witness :
    crossValidateResults sqDist [recNoCoords, recAtOne] [] "OR" = [recNoCoords, recAtOne] := by
  exact (crossValidate_fail_open sqDist [recNoCoords, recAtOne] [] "OR").1 rfl

/-! ## Claim C1: continuation-merge idempotence -/

theorem asStrList_map_str (l : List String) :
    asStrList (.arr (l.map JsonVal.str)) = l := by
  induction l with
  | nil => rfl
  | cons x xs ih => simpa [asStrList, asArr, asStr] using ih

theorem jsTruthy_str_iff (s : String) : jsTruthy (JsonVal.str s) = true ↔ s ≠ "" := by
  simp [jsTruthy]

theorem asStr_str (s : String) : asStr (JsonVal.str s) = s := rfl

theorem recordGet_mergeQueryStep_ne (ctx : SearchContext) (e : JsRecord) (k : String)
    (hk : k ≠ "query") : recordGet (mergeQueryStep ctx e) k = recordGet e k := by
  unfold mergeQueryStep
  split_ifs <;> simp [recordGet_set_ne _ _ _ _ hk]

theorem recordGet_mergeLocationStep (ctx : SearchContext) (e : JsRecord) :
    recordGet (mergeLocationStep ctx e) "location" =
      if ctx.location ≠ "" ∧ ¬jsTruthy (recordGet e "location") then .str ctx.location
      else recordGet e "location" := by
  unfold mergeLocationStep
  split_ifs <;> simp [recordGet_set_eq]

theorem recordGet_mergeLocationStep_ne (ctx : SearchContext) (e : JsRecord) (k : String)
    (hk : k ≠ "location") : recordGet (mergeLocationStep ctx e) k = recordGet e k := by
  unfold mergeLocationStep
  split_ifs <;> simp [recordGet_set_ne _ _ _ _ hk]

theorem recordGet_mergeAmenitiesStep (ctx : SearchContext) (e : JsRecord) :
    recordGet (mergeAmenitiesStep ctx e) "amenities" =
      match ctx.amenities with
      | some ca =>
          if jsTruthy (recordGet e "amenities") then
            .arr ((jsSetDedup (ca ++ asStrList (recordGet e "amenities"))).map .str)
          else .arr (ca.map .str)
      | none => recordGet e "amenities" := by
  unfold mergeAmenitiesStep
  cases ctx.amenities with
  | none => rfl
  | some ca => split_ifs <;> simp [recordGet_set_eq]

theorem recordGet_mergeAmenitiesStep_ne (ctx : SearchContext) (e : JsRecord) (k : String)
    (hk : k ≠ "amenities") : recordGet (mergeAmenitiesStep ctx e) k = recordGet e k := by
  unfold mergeAmenitiesStep
  cases ctx.amenities with
  | none => rfl
  | some ca => split_ifs <;> simp [recordGet_set_ne _ _ _ _ hk]

theorem recordGet_mergeOperatorStep (ctx : SearchContext) (e : JsRecord) :
    recordGet (mergeOperatorStep ctx e) "logicalOperator" =
      if ctx.logicalOperator ≠ "" ∧ ¬jsTruthy (recordGet e "logicalOperator") then
        .str ctx.logicalOperator
      else recordGet e "logicalOperator" := by
  unfold mergeOperatorStep
  split_ifs <;> simp [recordGet_set_eq]

theorem recordGet_mergeOperatorStep_ne (ctx : SearchContext) (e : JsRecord) (k : String)
    (hk : k ≠ "logicalOperator") : recordGet (mergeOperatorStep ctx e) k = recordGet e k := by
  unfold mergeOperatorStep
  split_ifs <;> simp [recordGet_set_ne _ _ _ _ hk]

theorem recordGet_mergeContinuation_location (ctx : SearchContext) (e : JsRecord) :
    recordGet (mergeContinuation ctx e) "location" =
      if ctx.location ≠ "" ∧ ¬jsTruthy (recordGet e "location") then .str ctx.location
      else recordGet e "location" := by
  unfold mergeContinuation
  rw [recordGet_mergeOperatorStep_ne _ _ _ (by decide),
    recordGet_mergeAmenitiesStep_ne _ _ _ (by decide),
    recordGet_mergeLocationStep,
    recordGet_mergeQueryStep_ne _ _ _ (by decide)]

theorem recordGet_mergeContinuation_operator (ctx : SearchContext) (e : JsRecord) :
    recordGet (mergeContinuation ctx e) "logicalOperator" =
      if ctx.logicalOperator ≠ "" ∧ ¬jsTruthy (recordGet e "logicalOperator") then
        .str ctx.logicalOperator
      else recordGet e "logicalOperator" := by
  unfold mergeContinuation
  rw [recordGet_mergeOperatorStep,
    recordGet_mergeAmenitiesStep_ne _ _ _ (by decide),
    recordGet_mergeLocationStep_ne _ _ _ (by decide),
    recordGet_mergeQueryStep_ne _ _ _ (by decide)]

theorem recordGet_mergeContinuation_amenities_some (ctx : SearchContext) (e : JsRecord)
    (ca : List String) (hca : ctx.amenities = some ca) :
    recordGet (mergeContinuation ctx e) "amenities" =
      if jsTruthy (recordGet e "amenities") then
        .arr ((jsSetDedup (ca ++ asStrList (recordGet e "amenities"))).map .str)
      else .arr (ca.map .str) := by
  unfold mergeContinuation
  rw [recordGet_mergeOperatorStep_ne _ _ _ (by decide),
    recordGet_mergeAmenitiesStep,
    recordGet_mergeLocationStep_ne _ _ _ (by decide),
    recordGet_mergeQueryStep_ne _ _ _ (by decide), hca]

theorem recordGet_mergeContinuation_amenities_none (ctx : SearchContext) (e : JsRecord)
    (hca : ctx.amenities = none) :
    recordGet (mergeContinuation ctx e) "amenities" = recordGet e "amenities" := by
  unfold mergeContinuation
  rw [recordGet_mergeOperatorStep_ne _ _ _ (by decide),
    recordGet_mergeAmenitiesStep,
    recordGet_mergeLocationStep_ne _ _ _ (by decide),
    recordGet_mergeQueryStep_ne _ _ _ (by decide), hca]

theorem mergeContinuation_idem_location (ctx : SearchContext) (e : JsRecord)
    (ags : List String) (rsn : String) (cont : Bool) (mq : Option JsonVal) (now : Nat) :
    recordGet (mergeContinuation
        (updateSearchContext ctx ⟨ags, mergeContinuation ctx e, rsn, cont⟩ mq now) e)
      "location" = recordGet (mergeContinuation ctx e) "location" := by
  have hctx1 : (updateSearchContext ctx ⟨ags, mergeContinuation ctx e, rsn, cont⟩ mq now).location =
      if jsTruthy (recordGet (mergeContinuation ctx e) "location") then
        asStr (recordGet (mergeContinuation ctx e) "location")
      else ctx.location := by
    simp [updateSearchContext]
  rw [recordGet_mergeContinuation_location, recordGet_mergeContinuation_location, hctx1,
    recordGet_mergeContinuation_location]
  by_cases ht : jsTruthy (recordGet e "location")
  · simp [ht]
  · by_cases hcl : ctx.location = ""
    · simp [ht, hcl]
    · rw [if_pos (show ctx.location ≠ "" ∧ ¬jsTruthy (recordGet e "location") = true from
          ⟨hcl, ht⟩),
        if_pos ((jsTruthy_str_iff ctx.location).mpr hcl), asStr_str,
        if_pos (show ctx.location ≠ "" ∧ ¬jsTruthy (recordGet e "location") = true from
          ⟨hcl, ht⟩)]

theorem mergeContinuation_idem_operator (ctx : SearchContext) (e : JsRecord)
    (ags : List String) (rsn : String) (cont : Bool) (mq : Option JsonVal) (now : Nat) :
    recordGet (mergeContinuation
        (updateSearchContext ctx ⟨ags, mergeContinuation ctx e, rsn, cont⟩ mq now) e)
      "logicalOperator" = recordGet (mergeContinuation ctx e) "logicalOperator" := by
  have hctx1 : (updateSearchContext ctx ⟨ags, mergeContinuation ctx e, rsn, cont⟩ mq
        now).logicalOperator =
      if jsTruthy (recordGet (mergeContinuation ctx e) "logicalOperator") then
        asStr (recordGet (mergeContinuation ctx e) "logicalOperator")
      else ctx.logicalOperator := by
    simp [updateSearchContext]
  rw [recordGet_mergeContinuation_operator, recordGet_mergeContinuation_operator, hctx1,
    recordGet_mergeContinuation_operator]
  by_cases ht : jsTruthy (recordGet e "logicalOperator")
  · simp [ht]
  · by_cases hcl : ctx.logicalOperator = ""
    · simp [ht, hcl]
    · rw [if_pos (show ctx.logicalOperator ≠ "" ∧
            ¬jsTruthy (recordGet e "logicalOperator") = true from ⟨hcl, ht⟩),
        if_pos ((jsTruthy_str_iff ctx.logicalOperator).mpr hcl), asStr_str,
        if_pos (show ctx.logicalOperator ≠ "" ∧
            ¬jsTruthy (recordGet e "logicalOperator") = true from ⟨hcl, ht⟩)]

theorem mergeContinuation_idem_amenities (ctx : SearchContext) (e : JsRecord)
    (ags : List String) (rsn : String) (cont : Bool) (mq : Option JsonVal) (now : Nat)
    (amens : List String)
    (ham : recordGet e "amenities" = JsonVal.null ∨
      (recordGet e "amenities" = JsonVal.arr (amens.map JsonVal.str) ∧ amens.Nodup)) :
    recordGet (mergeContinuation
        (updateSearchContext ctx ⟨ags, mergeContinuation ctx e, rsn, cont⟩ mq now) e)
      "amenities" = recordGet (mergeContinuation ctx e) "amenities" := by
  cases hca : ctx.amenities with
  | some ca =>
      by_cases he : jsTruthy (recordGet e "amenities")
      · have hi1 : recordGet (mergeContinuation ctx e) "amenities" =
            .arr ((jsSetDedup (ca ++ asStrList (recordGet e "amenities"))).map JsonVal.str) := by
          rw [recordGet_mergeContinuation_amenities_some ctx e ca hca, if_pos he]
        have hctx1am : (updateSearchContext ctx ⟨ags, mergeContinuation ctx e, rsn, cont⟩ mq
              now).amenities =
            some (jsSetDedup (ca ++ asStrList (recordGet e "amenities"))) := by
          simp [updateSearchContext, hi1, asStrList_map_str, jsTruthy]
        have hsub : ∀ y ∈ asStrList (recordGet e "amenities"),
            y ∈ jsSetDedup (ca ++ asStrList (recordGet e "amenities")) := fun y hy =>
          mem_jsSetDedup.mpr (List.mem_append.mpr (Or.inr hy))
        rw [recordGet_mergeContinuation_amenities_some _ e _ hctx1am, if_pos he, hi1,
          jsSetDedup_append_subset _ _ hsub, jsSetDedup_idem]
      · have hi1 : recordGet (mergeContinuation ctx e) "amenities" =
            .arr (ca.map JsonVal.str) := by
          rw [recordGet_mergeContinuation_amenities_some ctx e ca hca, if_neg he]
        have hctx1am : (updateSearchContext ctx ⟨ags, mergeContinuation ctx e, rsn, cont⟩ mq
              now).amenities = some ca := by
          simp [updateSearchContext, hi1, asStrList_map_str, jsTruthy]
        rw [recordGet_mergeContinuation_amenities_some _ e _ hctx1am, if_neg he, hi1]
  | none =>
      have hi1 : recordGet (mergeContinuation ctx e) "amenities" =
          recordGet e "amenities" := recordGet_mergeContinuation_amenities_none ctx e hca
      rcases ham with hnull | ⟨harr, hnodup⟩
      · have hctx1am : (updateSearchContext ctx ⟨ags, mergeContinuation ctx e, rsn, cont⟩ mq
              now).amenities = none := by
          simp [updateSearchContext, hi1, hnull, jsTruthy, hca]
        rw [recordGet_mergeContinuation_amenities_none _ e hctx1am, hi1]
      · have he : jsTruthy (recordGet e "amenities") = true := by rw [harr]; rfl
        have hctx1am : (updateSearchContext ctx ⟨ags, mergeContinuation ctx e, rsn, cont⟩ mq
              now).amenities = some amens := by
          simp [updateSearchContext, hi1, harr, asStrList_map_str, jsTruthy]
        rw [recordGet_mergeContinuation_amenities_some _ e _ hctx1am, if_pos he,
          recordGet_mergeContinuation_amenities_none ctx e hca, harr, asStrList_map_str,
          jsSetDedup_append_subset _ _ (fun y hy => hy), jsSetDedup_eq_self hnodup]

/-- C1 — counterexample.  The continuation merge is not idempotent: with
prior query `"casa"` and new-turn query `"with pool"` (which starts with
the continuation phrase `with`), merging once yields
`"casa with pool"`, but writing the merged bag back into the context and
merging again with the same new-turn bag yields
`"casa with pool with pool"` — a different bag. -/
theorem mergeContinuation_not_idempotent :
    recordGet mergedOnce "query" = .str "casa with pool" ∧
    recordGet (mergeContinuation (updateSearchContext ctxQueryCasa decisionMergedOnce none 1)
      bagWithPool) "query" = .str "casa with pool with pool" ∧
    mergeContinuation (updateSearchContext ctxQueryCasa decisionMergedOnce none 1) bagWithPool ≠
      mergedOnce := by
  decide

/-- C1 — amended claim.  The continuation merge is idempotent in its
location-retention, amenity-union and operator-retention components
(for amenity bags that are absent or duplicate-free string arrays); the
query-concatenation component is the exception — applying the merge
twice re-appends the new query text, as the counterexample shows. -/
theorem mergeContinuation_partial_idempotent (ctx : SearchContext) (e : JsRecord)
    (ags : List String) (rsn : String) (cont : Bool) (mq : Option JsonVal) (now : Nat)
    (amens : List String)
    (ham : recordGet e "amenities" = JsonVal.null ∨
      (recordGet e "amenities" = JsonVal.arr (amens.map JsonVal.str) ∧ amens.Nodup)) :
    recordGet (mergeContinuation
        (updateSearchContext ctx ⟨ags, mergeContinuation ctx e, rsn, cont⟩ mq now) e)
      "location" = recordGet (mergeContinuation ctx e) "location" ∧
    recordGet (mergeContinuation
        (updateSearchContext ctx ⟨ags, mergeContinuation ctx e, rsn, cont⟩ mq now) e)
      "logicalOperator" = recordGet (mergeContinuation ctx e) "logicalOperator" ∧
    recordGet (mergeContinuation
        (updateSearchContext ctx ⟨ags, mergeContinuation ctx e, rsn, cont⟩ mq now) e)
      "amenities" = recordGet (mergeContinuation ctx e) "amenities" :=
  ⟨mergeContinuation_idem_location ctx e ags rsn cont mq now,
   mergeContinuation_idem_operator ctx e ags rsn cont mq now,
   mergeContinuation_idem_amenities ctx e ags rsn cont mq now amens ham⟩

/-- Closed instantiation of `mergeContinuation_partial_idempotent`. -/
theorem mergeContinuation_partial_idempotent_witness :
    recordGet (mergeContinuation
        (updateSearchContext ctxHospital
          ⟨["FilterAgent"], mergeContinuation ctxHospital bagWithPool, "", true⟩ none 3)
        bagWithPool)
      "amenities" = recordGet (mergeContinuation ctxHospital bagWithPool) "amenities" := by
  exact (mergeContinuation_partial_idempotent ctxHospital bagWithPool ["FilterAgent"] "" true
    none 3 [] (Or.inl (by decide))).2.2

/-! ## Claims C3, C5, C6, C10: pipeline routing and traces -/

theorem runChain_trace (env : Env) (input : AgentInput) :
    ∀ (rest : List RegisteredAgent) (current : AgentOutput),
      (runChain env input current rest).2 = rest.map (fun a => Event.agentRun a.name)
  | [], _ => rfl
  | a :: rest, current => by
      simp only [runChain, List.map_cons, List.cons.injEq, true_and]
      rw [runChain_trace env input rest]

theorem chainAll_trace (env : Env) (input : AgentInput) :
    ∀ agents : List RegisteredAgent,
      (chainAll env input agents).2 = agents.map (fun a => Event.agentRun a.name)
  | [] => rfl
  | a :: rest => by
      simp only [chainAll, List.map_cons, List.cons.injEq, true_and]
      rw [runChain_trace env input rest]

theorem exNames_map_agentRun (l : List RegisteredAgent) :
    exNames (l.map (fun a => Event.agentRun a.name)) = l.map (fun a => a.name) := by
  unfold exNames
  rw [List.filterMap_map]
  exact List.filterMap_eq_map _ ▸ rfl

theorem filterThenGeo_exNames (env : Env) (f m : RegisteredAgent) (input : AgentInput) :
    exNames (filterThenGeo env f m input).2 = [f.name, m.name] := by
  simp only [filterThenGeo]
  split
  · split <;> rfl
  · rfl

theorem filterThenGeo_events (env : Env) (f m : RegisteredAgent) (input : AgentInput) :
    ∀ ev ∈ (filterThenGeo env f m input).2,
      ev = Event.routeFilterThenGeo ∨ (∃ n, ev = Event.agentRun n) ∨
        ∃ mq, ev = Event.storeExecute mq := by
  intro ev hev
  simp only [filterThenGeo] at hev
  split at hev
  · split at hev <;>
      · simp only [List.cons_append, List.nil_append, List.mem_cons,
          List.not_mem_nil, or_false] at hev
        rcases hev with rfl | rfl | rfl | rfl
        · exact Or.inl rfl
        · exact Or.inr (Or.inl ⟨_, rfl⟩)
        · exact Or.inr (Or.inr ⟨_, rfl⟩)
        · exact Or.inr (Or.inl ⟨_, rfl⟩)
  · simp only [List.cons_append, List.nil_append, List.mem_cons,
      List.not_mem_nil, or_false] at hev
    rcases hev with rfl | rfl | rfl
    · exact Or.inl rfl
    · exact Or.inr (Or.inl ⟨_, rfl⟩)
    · exact Or.inr (Or.inl ⟨_, rfl⟩)

theorem mapsFirstFlow_events (env : Env) (m f : RegisteredAgent) (e : JsRecord)
    (query : String) (hist : List ChatMessage) :
    ∀ ev ∈ (mapsFirstFlow env m f e query hist).2,
      (∃ n, ev = Event.agentRun n) ∨ ∃ mq, ev = Event.storeExecute mq := by
  intro ev hev
  simp only [mapsFirstFlow] at hev
  split at hev
  · split at hev
    · split at hev <;>
        · simp only [List.mem_cons, List.not_mem_nil, or_false] at hev
          rcases hev with rfl | rfl | rfl
          · exact Or.inl ⟨_, rfl⟩
          · exact Or.inl ⟨_, rfl⟩
          · exact Or.inr ⟨_, rfl⟩
    · simp only [List.mem_cons, List.not_mem_nil, or_false] at hev
      rcases hev with rfl | rfl
      · exact Or.inl ⟨_, rfl⟩
      · exact Or.inl ⟨_, rfl⟩
  · simp only [List.mem_cons, List.not_mem_nil, or_false] at hev
    rcases hev with rfl
    exact Or.inl ⟨_, rfl⟩

theorem processMapsFirst_events (env : Env) (d : AgentDecision) (q : String)
    (hist : List ChatMessage) :
    ∀ ev ∈ (processMapsFirst env d q hist).2,
      (∃ vout, ev = Event.validatorRun vout) ∨ (∃ n, ev = Event.agentRun n) ∨
        ∃ mq, ev = Event.storeExecute mq := by
  intro ev hev
  cases hM : env.agents.find? (fun a => a.name == "MapsAgent") with
  | none =>
      simp only [processMapsFirst, hM] at hev
      simp at hev
  | some m =>
      cases hF : env.agents.find? (fun a => a.name == "FilterAgent") with
      | none =>
          simp only [processMapsFirst, hM, hF] at hev
          simp at hev
      | some f =>
          cases hV : env.agents.find? (fun a => a.name == "ValidatorAgent") with
          | none =>
              simp only [processMapsFirst, hM, hF, hV] at hev
              exact Or.inr (mapsFirstFlow_events env m f d.extractedInputs q hist ev hev)
          | some v =>
              simp only [processMapsFirst, hM, hF, hV] at hev
              split at hev
              · simp only [List.mem_cons, List.not_mem_nil, or_false] at hev
                exact Or.inl ⟨_, hev⟩
              · simp only [List.mem_cons] at hev
                rcases hev with rfl | hev
                · exact Or.inl ⟨_, rfl⟩
                · exact Or.inr (mapsFirstFlow_events env m f d.extractedInputs q hist ev hev)

theorem processMapsFirst_no_validatorRun (env : Env) (d : AgentDecision) (q : String)
    (hist : List ChatMessage)
    (hV : env.agents.find? (fun a => a.name == "ValidatorAgent") = none)
    (vout : AgentOutput) :
    Event.validatorRun vout ∉ (processMapsFirst env d q hist).2 := by
  intro hmem
  cases hM : env.agents.find? (fun a => a.name == "MapsAgent") with
  | none => simp only [processMapsFirst, hM] at hmem; simp at hmem
  | some m =>
      cases hF : env.agents.find? (fun a => a.name == "FilterAgent") with
      | none => simp only [processMapsFirst, hM, hF] at hmem; simp at hmem
      | some f =>
          simp only [processMapsFirst, hM, hF, hV] at hmem
          rcases mapsFirstFlow_events env m f d.extractedInputs q hist _ hmem with
            ⟨n, h⟩ | ⟨mq, h⟩ <;> simp at h

theorem processMapsFirst_flagged (env : Env) (d : AgentDecision) (q : String)
    (hist : List ChatMessage) (vout : AgentOutput)
    (hmem : Event.validatorRun vout ∈ (processMapsFirst env d q hist).2)
    (hflag : vout.missingInputs ≠ []) :
    (processMapsFirst env d q hist).1 = vout ∧
    (∀ mq, Event.storeExecute mq ∉ (processMapsFirst env d q hist).2) ∧
    (∀ n, Event.agentRun n ∉ (processMapsFirst env d q hist).2) := by
  cases hM : env.agents.find? (fun a => a.name == "MapsAgent") with
  | none => simp only [processMapsFirst, hM] at hmem; simp at hmem
  | some m =>
      cases hF : env.agents.find? (fun a => a.name == "FilterAgent") with
      | none => simp only [processMapsFirst, hM, hF] at hmem; simp at hmem
      | some f =>
          cases hV : env.agents.find? (fun a => a.name == "ValidatorAgent") with
          | none =>
              exact absurd hmem (processMapsFirst_no_validatorRun env d q hist hV vout)
          | some v =>
              simp only [processMapsFirst, hM, hF, hV] at hmem ⊢
              by_cases hvres :
                (v.process ⟨q, hist, mapsFirstContext d.extractedInputs⟩).missingInputs ≠ []
              · rw [if_pos hvres] at hmem ⊢
                simp only [List.mem_cons, List.not_mem_nil, or_false,
                  Event.validatorRun.injEq] at hmem
                subst hmem
                refine ⟨rfl, fun mq h => by simp at h, fun n h => by simp at h⟩
              · rw [if_neg hvres] at hmem ⊢
                simp only [List.mem_cons, Event.validatorRun.injEq] at hmem
                rcases hmem with rfl | hmem
                · exact absurd (not_ne_iff.mp hvres) hflag
                · rcases mapsFirstFlow_events env m f d.extractedInputs q hist _ hmem with
                    ⟨n, h⟩ | ⟨mq, h⟩ <;> simp at h

theorem processWithAgents_events (env : Env) (agents : List RegisteredAgent)
    (input : AgentInput) :
    ∀ ev ∈ (processWithAgents env agents input).2,
      ev = Event.routeFilterThenGeo ∨ (∃ n, ev = Event.agentRun n) ∨
        ∃ mq, ev = Event.storeExecute mq := by
  intro ev hev
  simp only [processWithAgents] at hev
  split at hev
  · simp at hev
  · split at hev
    · split at hev
      · simp only [List.mem_cons, List.not_mem_nil, or_false] at hev
        exact Or.inr (Or.inl ⟨_, hev⟩)
      · simp at hev
    · split at hev
      · split at hev
        · exact filterThenGeo_events env _ _ input ev hev
        · rw [chainAll_trace] at hev
          rcases List.mem_map.mp hev with ⟨a, _, rfl⟩
          exact Or.inr (Or.inl ⟨_, rfl⟩)
      · rw [chainAll_trace] at hev
        rcases List.mem_map.mp hev with ⟨a, _, rfl⟩
        exact Or.inr (Or.inl ⟨_, rfl⟩)

theorem processWithAgents_no_validatorRun (env : Env) (agents : List RegisteredAgent)
    (input : AgentInput) (vout : AgentOutput) :
    Event.validatorRun vout ∉ (processWithAgents env agents input).2 := by
  intro hmem
  rcases processWithAgents_events env agents input _ hmem with h | ⟨n, h⟩ | ⟨mq, h⟩ <;>
    simp at h

theorem processWithAgents_route (env : Env) (agents : List RegisteredAgent)
    (input : AgentInput) :
    Event.routeFilterThenGeo ∈ (processWithAgents env agents input).2 →
    (∃ m ∈ agents, m.name = "MapsAgent") ∧
    jsTruthy (recordGet input.additionalContext "location") = true ∧
    jsTruthy (recordGet input.additionalContext "amenities") = true := by
  intro hev
  cases hF : agents.find? (fun a => a.name == "FilterAgent") with
  | none =>
      exfalso
      simp only [processWithAgents, hF] at hev
      split at hev
      · simp at hev
      · split at hev
        · split at hev <;> simp at hev
        · rw [chainAll_trace] at hev
          rcases List.mem_map.mp hev with ⟨a, _, h⟩
          simp at h
  | some f =>
      cases hM : agents.find? (fun a => a.name == "MapsAgent") with
      | none =>
          exfalso
          simp only [processWithAgents, hF, hM] at hev
          split at hev
          · simp at hev
          · split at hev
            · split at hev <;> simp at hev
            · rw [chainAll_trace] at hev
              rcases List.mem_map.mp hev with ⟨a, _, h⟩
              simp at h
      | some m =>
          simp only [processWithAgents, hF, hM] at hev
          split at hev
          · simp at hev
          · split at hev
            · split at hev <;> simp at hev
            · split at hev
              case isTrue h =>
                exact ⟨⟨m, List.mem_of_find?_eq_some hM, by simpa using List.find?_some hM⟩,
                  h.2.1, h.2.2⟩
              case isFalse h =>
                exfalso
                rw [chainAll_trace] at hev
                rcases List.mem_map.mp hev with ⟨a, _, heq⟩
                simp at heq

theorem afterValidation_no_filterThenGeo (env : Env) (d : AgentDecision) (q : String)
    (hist : List ChatMessage) :
    Event.routeFilterThenGeo ∉ (afterValidation env d q hist).2 := by
  intro hmem
  simp only [afterValidation] at hmem
  split at hmem
  case isTrue hroute =>
    simp only [List.mem_cons] at hmem
    rcases hmem with h | hmem
    · simp at h
    · rcases processMapsFirst_events env d q hist _ hmem with ⟨vout, h⟩ | ⟨n, h⟩ | ⟨mq, h⟩ <;>
        simp at h
  case isFalse hroute =>
    split at hmem
    · simp at hmem
    · split at hmem
      · simp at hmem
      · have h2 := processWithAgents_route env _ _ hmem
        rcases h2 with ⟨⟨m, hmsel, hmname⟩, hloc, hamen⟩
        rcases List.mem_filterMap.mp hmsel with ⟨n, hn, hfind⟩
        have hnm : m.name = n := by simpa using List.find?_some hfind
        have hmm : "MapsAgent" ∈ d.agents := by
          rw [← hnm, hmname] at hn
          exact hn
        exact hroute ⟨by simpa using hmm, hloc, hamen⟩

theorem afterValidation_no_validatorRun (env : Env) (d : AgentDecision) (q : String)
    (hist : List ChatMessage)
    (hV : env.agents.find? (fun a => a.name == "ValidatorAgent") = none)
    (vout : AgentOutput) :
    Event.validatorRun vout ∉ (afterValidation env d q hist).2 := by
  intro hmem
  simp only [afterValidation] at hmem
  split at hmem
  · simp only [List.mem_cons] at hmem
    rcases hmem with h | hmem
    · simp at h
    · exact processMapsFirst_no_validatorRun env d q hist hV vout hmem
  · split at hmem
    · simp at hmem
    · split at hmem
      · simp at hmem
      · exact processWithAgents_no_validatorRun env _ _ vout hmem

theorem afterValidation_flagged (env : Env) (d : AgentDecision) (q : String)
    (hist : List ChatMessage) (vout : AgentOutput)
    (hmem : Event.validatorRun vout ∈ (afterValidation env d q hist).2)
    (hflag : vout.missingInputs ≠ []) :
    (afterValidation env d q hist).1 = vout ∧
    (∀ mq, Event.storeExecute mq ∉ (afterValidation env d q hist).2) ∧
    (∀ n, Event.agentRun n ∉ (afterValidation env d q hist).2) := by
  simp only [afterValidation] at hmem ⊢
  split at hmem
  case isTrue hroute =>
    rw [if_pos hroute]
    simp only [List.mem_cons] at hmem
    rcases hmem with h | hmem
    · exact absurd h (by simp)
    · have h3 := processMapsFirst_flagged env d q hist vout hmem hflag
      refine ⟨h3.1, fun mq h => ?_, fun n h => ?_⟩ <;>
        rcases List.mem_cons.mp h with h | h
      · simp at h
      · exact h3.2.1 mq h
      · simp at h
      · exact h3.2.2 n h
  case isFalse hroute =>
    exfalso
    split at hmem
    · simp at hmem
    · split at hmem
      · simp at hmem
      · exact processWithAgents_no_validatorRun env _ _ vout hmem

theorem afterValidation_mapsFirst_mem (env : Env) (d : AgentDecision) (q : String)
    (hist : List ChatMessage)
    (hcond : d.agents.contains "MapsAgent" = true ∧
      jsTruthy (recordGet d.extractedInputs "location") = true ∧
      jsTruthy (recordGet d.extractedInputs "amenities") = true) :
    Event.routeMapsFirst ∈ (afterValidation env d q hist).2 := by
  simp only [afterValidation]
  rw [if_pos hcond]
  exact List.mem_cons_self _ _

/-- C6 — confirmed.  Whenever a validator invocation in a turn flags at
least one field (a non-empty missing-input list appears in the trace),
`processQuery` returns exactly that clarification output, no record-store
call occurs, and no capability other than the validator itself executes
(geospatial-collaborator calls happen only inside the maps capability,
whose `agentRun` is absent). -/
theorem processQuery_validation_short_circuit (env : Env) (q : String)
    (hist : List ChatMessage) (vout : AgentOutput)
    (hmem : Event.validatorRun vout ∈ (processQuery env q hist).2)
    (hflag : vout.missingInputs ≠ []) :
    (processQuery env q hist).1 = vout ∧
    (∀ mq, Event.storeExecute mq ∉ (processQuery env q hist).2) ∧
    (∀ n, Event.agentRun n ∉ (processQuery env q hist).2) := by
  cases hV : env.agents.find? (fun a => a.name == "ValidatorAgent") with
  | none =>
      exfalso
      simp only [processQuery, hV] at hmem
      exact afterValidation_no_validatorRun env _ q hist hV vout hmem
  | some v =>
      simp only [processQuery, hV] at hmem ⊢
      by_cases hvres :
        (v.process ⟨q, hist,
          (determineAgents env.llmResponse env.searchContext).extractedInputs⟩).missingInputs ≠ []
      · rw [if_pos hvres] at hmem ⊢
        simp only [List.mem_cons, List.not_mem_nil, or_false,
          Event.validatorRun.injEq] at hmem
        subst hmem
        exact ⟨rfl, fun mq h => by simp at h, fun n h => by simp at h⟩
      · rw [if_neg hvres] at hmem ⊢
        simp only [List.mem_cons, Event.validatorRun.injEq] at hmem
        rcases hmem with rfl | hmem
        · exact absurd (not_ne_iff.mp hvres) hflag
        · have h3 := afterValidation_flagged env _ q hist vout hmem hflag
          refine ⟨h3.1, fun mq h => ?_, fun n h => ?_⟩ <;>
            rcases List.mem_cons.mp h with h | h
          · simp at h
          · exact h3.2.1 mq h
          · simp at h
          · exact h3.2.2 n h

/-- Closed instantiation of `processQuery_validation_short_circuit`. -/
theorem processQuery_validation_short_circuit_witness :
    (processQuery envFlagging "q" []).1 = ⟨"aclara la ubicación", none, ["location"]⟩ ∧
    (∀ mq, Event.storeExecute mq ∉ (processQuery envFlagging "q" []).2) ∧
    (∀ n, Event.agentRun n ∉ (processQuery envFlagging "q" []).2) := by
  exact processQuery_validation_short_circuit envFlagging "q" []
    ⟨"aclara la ubicación", none, ["location"]⟩ (by decide) (by decide)

/-- C10 — confirmed.  When no capability named `ValidatorAgent` is
registered, `processQuery` performs no validation at all: no validator
invocation appears in the trace, and the turn is exactly the
post-validation flow (fast-path selection and pipeline) applied to the
unvalidated merged decision. -/
theorem processQuery_no_validator_skips (env : Env) (q : String) (hist : List ChatMessage)
    (h : ∀ a ∈ env.agents, a.name ≠ "ValidatorAgent") :
    (∀ vout, Event.validatorRun vout ∉ (processQuery env q hist).2) ∧
    processQuery env q hist =
      afterValidation env (determineAgents env.llmResponse env.searchContext) q hist := by
  have hV : env.agents.find? (fun a => a.name == "ValidatorAgent") = none :=
    List.find?_eq_none.mpr (fun a ha => by simpa using h a ha)
  constructor
  · intro vout hmem
    simp only [processQuery, hV] at hmem
    exact afterValidation_no_validatorRun env _ q hist hV vout hmem
  · simp only [processQuery, hV]

/-- Closed instantiation of `processQuery_no_validator_skips`. -/
theorem processQuery_no_validator_skips_witness :
    (∀ vout, Event.validatorRun vout ∉ (processQuery envFilterMaps "q" []).2) ∧
    processQuery envFilterMaps "q" [] =
      afterValidation envFilterMaps
        (determineAgents envFilterMaps.llmResponse envFilterMaps.searchContext) "q" [] := by
  exact processQuery_no_validator_skips envFilterMaps "q" [] (by decide)

/-- C3 — counterexample.  With exactly the filtering and geospatial
capabilities selected and both location and amenities present,
`processQuery` does not run the filter-then-geo fast path: it enters the
maps-first (geo-then-filter) flow, the geospatial capability is the first
and only capability run here, and the filtering capability never runs. -/
theorem processQuery_trigger_runs_maps_first :
    (processQuery envFilterMaps "quiero una casa cerca de un hospital en Tlaquepaque" []).2 =
      [Event.routeMapsFirst, Event.agentRun "MapsAgent"] ∧
    Event.routeFilterThenGeo ∉
      (processQuery envFilterMaps "quiero una casa cerca de un hospital en Tlaquepaque" []).2 ∧
    Event.agentRun "FilterAgent" ∉
      (processQuery envFilterMaps "quiero una casa cerca de un hospital en Tlaquepaque" []).2 := by
  decide

/-- C3 — amended claim.  Under the stated trigger (filtering and
geospatial selected, location and amenities present, validation passing)
the pipeline executes the geo-then-filter maps-first flow, not
filter-then-geo; the filter-then-geo special case is unreachable from
`processQuery` on every input, because the maps-first branch tests the
same condition earlier. -/
theorem processQuery_maps_first_route (env : Env) (q : String) (hist : List ChatMessage) :
    Event.routeFilterThenGeo ∉ (processQuery env q hist).2 ∧
    ((determineAgents env.llmResponse env.searchContext).agents.contains "MapsAgent" = true →
     jsTruthy (recordGet (determineAgents env.llmResponse env.searchContext).extractedInputs
       "location") = true →
     jsTruthy (recordGet (determineAgents env.llmResponse env.searchContext).extractedInputs
       "amenities") = true →
     (∀ v, env.agents.find? (fun a => a.name == "ValidatorAgent") = some v →
       (v.process ⟨q, hist,
         (determineAgents env.llmResponse env.searchContext).extractedInputs⟩).missingInputs
           = []) →
     Event.routeMapsFirst ∈ (processQuery env q hist).2) := by
  constructor
  · intro hmem
    cases hV : env.agents.find? (fun a => a.name == "ValidatorAgent") with
    | none =>
        simp only [processQuery, hV] at hmem
        exact afterValidation_no_filterThenGeo env _ q hist hmem
    | some v =>
        simp only [processQuery, hV] at hmem
        split at hmem
        · simp at hmem
        · simp only [List.mem_cons] at hmem
          rcases hmem with h | hmem
          · simp at h
          · exact afterValidation_no_filterThenGeo env _ q hist hmem
  · intro hc hl ha hval
    cases hV : env.agents.find? (fun a => a.name == "ValidatorAgent") with
    | none =>
        simp only [processQuery, hV]
        exact afterValidation_mapsFirst_mem env _ q hist ⟨hc, hl, ha⟩
    | some v =>
        simp only [processQuery, hV]
        by_cases hne :
          (v.process ⟨q, hist,
            (determineAgents env.llmResponse env.searchContext).extractedInputs⟩).missingInputs
              ≠ []
        · exact absurd (hval v hV) hne
        · rw [if_neg hne]
          exact List.mem_cons_of_mem _
            (afterValidation_mapsFirst_mem env _ q hist ⟨hc, hl, ha⟩)

/-- Closed instantiation of `processQuery_maps_first_route`. -/
theorem processQuery_maps_first_route_witness :
    Event.routeMapsFirst ∈ (processQuery envFilterMaps "quiero una casa" []).2 := by
  exact (processQuery_maps_first_route envFilterMaps "quiero una casa" []).2
    (by decide) (by decide) (by decide) (fun v hv => by
      have h0 : (envFilterMaps.agents.find? (fun a => a.name == "ValidatorAgent")).isNone
          = true := rfl
      rw [hv] at h0
      simp at h0)

theorem processWithAgents_exNames (env : Env) (agents : List RegisteredAgent)
    (input : AgentInput) :
    exNames (processWithAgents env agents input).2 =
      ((agents.find? (fun a => a.name == "FilterAgent")).toList ++
        (agents.find? (fun a => a.name == "MapsAgent")).toList ++
        agents.filter (fun a => a.name ≠ "FilterAgent" ∧ a.name ≠ "MapsAgent")).map
        (fun a => a.name) := by
  cases hF : agents.find? (fun a => a.name == "FilterAgent") with
  | some f =>
      cases hM : agents.find? (fun a => a.name == "MapsAgent") with
      | some m =>
          simp only [processWithAgents, hF, hM, Option.toList_some, List.cons_append,
            List.nil_append]
          rw [if_neg (by simp), if_neg (by simp)]
          split
          case isTrue h =>
            have hO : agents.filter
                (fun a => a.name ≠ "FilterAgent" ∧ a.name ≠ "MapsAgent") = [] := by
              have h1 := h.1
              simp only [List.length_cons] at h1
              exact List.length_eq_zero.mp (by omega)
            rw [filterThenGeo_exNames, hO]
            rfl
          case isFalse h =>
            rw [chainAll_trace, exNames_map_agentRun]
      | none =>
          cases hO : agents.filter
              (fun a => a.name ≠ "FilterAgent" ∧ a.name ≠ "MapsAgent") with
          | nil =>
              simp only [processWithAgents, hF, hM, hO, Option.toList_some,
                Option.toList_none, List.cons_append, List.nil_append, List.append_nil]
              rw [if_neg (by simp), if_pos (by simp)]
              rfl
          | cons a t =>
              simp only [processWithAgents, hF, hM, hO, Option.toList_some,
                Option.toList_none, List.cons_append, List.nil_append]
              rw [if_neg (by simp), if_neg (by simp)]
              rw [chainAll_trace, exNames_map_agentRun]
  | none =>
      cases hM : agents.find? (fun a => a.name == "MapsAgent") with
      | some m =>
          cases hO : agents.filter
              (fun a => a.name ≠ "FilterAgent" ∧ a.name ≠ "MapsAgent") with
          | nil =>
              simp only [processWithAgents, hF, hM, hO, Option.toList_some,
                Option.toList_none, List.cons_append, List.nil_append, List.append_nil]
              rw [if_neg (by simp), if_pos (by simp)]
              rfl
          | cons a t =>
              simp only [processWithAgents, hF, hM, hO, Option.toList_some,
                Option.toList_none, List.cons_append, List.nil_append]
              rw [if_neg (by simp), if_neg (by simp)]
              rw [chainAll_trace, exNames_map_agentRun]
      | none =>
          cases hO : agents.filter
              (fun a => a.name ≠ "FilterAgent" ∧ a.name ≠ "MapsAgent") with
          | nil =>
              simp only [processWithAgents, hF, hM, hO, Option.toList_none,
                List.nil_append]
              rw [if_pos (by simp)]
              rfl
          | cons a t =>
              cases t with
              | nil =>
                  simp only [processWithAgents, hF, hM, hO, Option.toList_none,
                    List.nil_append]
                  rw [if_neg (by simp), if_pos (by simp)]
                  rfl
              | cons b t2 =>
                  simp only [processWithAgents, hF, hM, hO, Option.toList_none,
                    List.nil_append]
                  rw [if_neg (by simp), if_neg (by simp)]
                  rw [chainAll_trace, exNames_map_agentRun]

theorem count_map_name_other (n : String) (hF : n ≠ "FilterAgent") (hM : n ≠ "MapsAgent") :
    ∀ agents : List RegisteredAgent,
      ((agents.filter (fun a => a.name ≠ "FilterAgent" ∧ a.name ≠ "MapsAgent")).map
        (fun a => a.name)).count n = (agents.map (fun a => a.name)).count n
  | [] => rfl
  | a :: l => by
      by_cases ha : a.name ≠ "FilterAgent" ∧ a.name ≠ "MapsAgent"
      · rw [List.filter_cons, if_pos (by simpa using ha)]
        simp only [List.map_cons, List.count_cons]
        rw [count_map_name_other n hF hM l]
      · have hname : a.name = "FilterAgent" ∨ a.name = "MapsAgent" := by
          rcases not_and_or.mp ha with h | h
          · exact Or.inl (not_not.mp h)
          · exact Or.inr (not_not.mp h)
        have hne : ¬n = a.name := by
          rcases hname with h | h <;> simp [h, hF, hM]
        have hne2 : ¬a.name = n := fun h => hne h.symm
        rw [List.filter_cons, if_neg (by simpa using ha)]
        rw [count_map_name_other n hF hM l]
        simp [List.map_cons, List.count_cons, hne, hne2]

/-- C5 — counterexample.  A plan listing the same capability name twice
executes that capability twice in one pipeline run: with the plan
`["PropertyAgent", "PropertyAgent"]` the turn's trace runs the
capability twice — capabilities other than the filtering and geospatial
ones are not de-duplicated. -/
theorem processQuery_duplicate_execution :
    exNames (processQuery envDupProperty "q" []).2 = ["PropertyAgent", "PropertyAgent"] ∧
    (exNames (processQuery envDupProperty "q" []).2).count "PropertyAgent" = 2 := by
  decide

/-- C5 — amended claim.  In every pipeline run, the filtering capability
executes at most once and the geospatial capability at most once, in
that order before everything else; every other capability executes
exactly as many times as it occurs in the selected list (duplicates are
not removed), in their original relative order after those two. -/
theorem processWithAgents_order (env : Env) (agents : List RegisteredAgent)
    (input : AgentInput) :
    (exNames (processWithAgents env agents input).2).count "FilterAgent" ≤ 1 ∧
    (exNames (processWithAgents env agents input).2).count "MapsAgent" ≤ 1 ∧
    (∀ n, n ≠ "FilterAgent" → n ≠ "MapsAgent" →
      (exNames (processWithAgents env agents input).2).count n =
        (agents.map (fun a => a.name)).count n) ∧
    exNames (processWithAgents env agents input).2 =
      (exNames (processWithAgents env agents input).2).filter
        (fun n => n == "FilterAgent") ++
      (exNames (processWithAgents env agents input).2).filter
        (fun n => n == "MapsAgent") ++
      (exNames (processWithAgents env agents input).2).filter
        (fun n => n ≠ "FilterAgent" ∧ n ≠ "MapsAgent") := by
  rw [processWithAgents_exNames]
  have hOnames : ∀ x ∈ (agents.filter
      (fun a => a.name ≠ "FilterAgent" ∧ a.name ≠ "MapsAgent")).map (fun a => a.name),
      x ≠ "FilterAgent" ∧ x ≠ "MapsAgent" := by
    intro x hx
    rcases List.mem_map.mp hx with ⟨a, ha, rfl⟩
    simpa using List.of_mem_filter ha
  have hOF : ((agents.filter
      (fun a => a.name ≠ "FilterAgent" ∧ a.name ≠ "MapsAgent")).map
        (fun a => a.name)).count "FilterAgent" = 0 :=
    List.count_eq_zero.mpr (fun h => (hOnames _ h).1 rfl)
  have hOM : ((agents.filter
      (fun a => a.name ≠ "FilterAgent" ∧ a.name ≠ "MapsAgent")).map
        (fun a => a.name)).count "MapsAgent" = 0 :=
    List.count_eq_zero.mpr (fun h => (hOnames _ h).2 rfl)
  have hCF : ((agents.filter
      (fun a => a.name ≠ "FilterAgent" ∧ a.name ≠ "MapsAgent")).map
        (fun a => a.name)).filter (fun n => n == "FilterAgent") = [] :=
    List.filter_eq_nil.mpr (fun a ha => by simpa using (hOnames a ha).1)
  have hCM : ((agents.filter
      (fun a => a.name ≠ "FilterAgent" ∧ a.name ≠ "MapsAgent")).map
        (fun a => a.name)).filter (fun n => n == "MapsAgent") = [] :=
    List.filter_eq_nil.mpr (fun a ha => by simpa using (hOnames a ha).2)
  have hCO : ((agents.filter
      (fun a => a.name ≠ "FilterAgent" ∧ a.name ≠ "MapsAgent")).map
        (fun a => a.name)).filter (fun n => n ≠ "FilterAgent" ∧ n ≠ "MapsAgent") =
      (agents.filter (fun a => a.name ≠ "FilterAgent" ∧ a.name ≠ "MapsAgent")).map
        (fun a => a.name) :=
    List.filter_eq_self.mpr (fun a ha => by simpa using hOnames a ha)
  cases hF : agents.find? (fun a => a.name == "FilterAgent") with
  | some f =>
      have hfname : f.name = "FilterAgent" := by simpa using List.find?_some hF
      cases hM : agents.find? (fun a => a.name == "MapsAgent") with
      | some m =>
          have hmname : m.name = "MapsAgent" := by simpa using List.find?_some hM
          refine ⟨?_, ?_, fun n hnF hnM => ?_, ?_⟩
          · simp only [Option.toList_some, List.cons_append, List.nil_append,
              List.map_cons, List.count_cons, hfname, hmname, hOF]
            simp
          · simp only [Option.toList_some, List.cons_append, List.nil_append,
              List.map_cons, List.count_cons, hfname, hmname, hOM]
            simp
          · simp only [Option.toList_some, List.cons_append, List.nil_append,
              List.map_cons, List.count_cons, hfname, hmname]
            rw [count_map_name_other n hnF hnM agents]
            simp [Ne.symm hnF, Ne.symm hnM]
          · simp only [Option.toList_some, List.cons_append, List.nil_append,
              List.map_cons, List.filter_cons, List.filter_append, hfname, hmname,
              hCF, hCM, hCO]
            simp
      | none =>
          refine ⟨?_, ?_, fun n hnF hnM => ?_, ?_⟩
          · simp only [Option.toList_some, Option.toList_none, List.cons_append,
              List.nil_append, List.map_cons, List.count_cons, hfname, hOF]
            simp
          · simp only [Option.toList_some, Option.toList_none, List.cons_append,
              List.nil_append, List.map_cons, List.count_cons, hfname, hOM]
            simp
          · simp only [Option.toList_some, Option.toList_none, List.cons_append,
              List.nil_append, List.map_cons, List.count_cons, hfname]
            rw [count_map_name_other n hnF hnM agents]
            simp [Ne.symm hnF]
          · simp only [Option.toList_some, Option.toList_none, List.cons_append,
              List.nil_append, List.map_cons, List.filter_cons, hfname, hCF, hCM, hCO]
            simp
  | none =>
      cases hM : agents.find? (fun a => a.name == "MapsAgent") with
      | some m =>
          have hmname : m.name = "MapsAgent" := by simpa using List.find?_some hM
          refine ⟨?_, ?_, fun n hnF hnM => ?_, ?_⟩
          · simp only [Option.toList_some, Option.toList_none, List.cons_append,
              List.nil_append, List.map_cons, List.count_cons, hmname, hOF]
            simp
          · simp only [Option.toList_some, Option.toList_none, List.cons_append,
              List.nil_append, List.map_cons, List.count_cons, hmname, hOM]
            simp
          · simp only [Option.toList_some, Option.toList_none, List.cons_append,
              List.nil_append, List.map_cons, List.count_cons, hmname]
            rw [count_map_name_other n hnF hnM agents]
            simp [Ne.symm hnM]
          · simp only [Option.toList_some, Option.toList_none, List.cons_append,
              List.nil_append, List.map_cons, List.filter_cons, hmname, hCF, hCM, hCO]
            simp
      | none =>
          refine ⟨?_, ?_, fun n hnF hnM => ?_, ?_⟩
          · simp only [Option.toList_none, List.nil_append, hOF]
            simp
          · simp only [Option.toList_none, List.nil_append, hOM]
            simp
          · simp only [Option.toList_none, List.nil_append]
            exact count_map_name_other n hnF hnM agents
          · simp only [Option.toList_none, List.nil_append, hCF, hCM, hCO]

/-- Closed instantiation of `processWithAgents_order`. -/
theorem processWithAgents_order_witness :
    (exNames (processWithAgents envDupProperty
        [stubAgent "PropertyAgent", stubAgent "PropertyAgent"] ⟨"q", [], []⟩).2).count
      "PropertyAgent" =
    (([stubAgent "PropertyAgent", stubAgent "PropertyAgent"]).map
      (fun a => a.name)).count "PropertyAgent" := by
  exact (processWithAgents_order envDupProperty
    [stubAgent "PropertyAgent", stubAgent "PropertyAgent"] ⟨"q", [], []⟩).2.2.1
    "PropertyAgent" (by decide) (by decide)

end Millow
